import Mathlib

/-!
Verification of the AI_slip extraction-and-aggregation pipeline
(`src/index.jsx`) against its natural-language specification.

The JavaScript source is shallowly embedded: numbers are modelled as
rationals, with `Option ℚ` standing for a possibly-NaN JavaScript number
(`none` is NaN); optional/nullable string fields are `Option String`
(JavaScript truthiness of a string is "present and non-empty"); the
insertion-ordered string-keyed objects used as grouping maps are modelled
as association lists together with the ECMAScript own-property enumeration
order (canonical array-index keys first, in ascending numeric order, then
the remaining keys in insertion order); `Array.prototype.sort` with a
numeric comparator is modelled as a stable sort.
-/

namespace AISlip

/-! ## Normalizer (`parseAmount`, `canonicalizeBankName`) -/

/-- Characters kept by the amount-stripping regular expression
`[^0-9.-]+` of `src/index.jsx` line 370: digits, the decimal point and
the minus sign. -/
def amountChar (c : Char) : Bool :=
  c.isDigit || c = '.' || c = '-'

/-- `raw.replace(/[^0-9.-]+/g, "")`: drop every character that is not a
digit, a decimal point or a minus sign. -/
def stripAmount (raw : String) : String :=
  String.mk (raw.toList.filter amountChar)

/-- Split a character list into its longest digit prefix and the rest
(the digit-scanning step of `parseFloat`). -/
def takeDigits : List Char → List Char × List Char
  | [] => ([], [])
  | c :: rest =>
    if c.isDigit then
      let p := takeDigits rest
      (c :: p.1, p.2)
    else ([], c :: rest)

/-- Numeric value of a digit string, most significant digit first. -/
def digitsToNat (ds : List Char) : Nat :=
  ds.foldl (fun n c => n * 10 + (c.toNat - 48)) 0

/-- Value of a fractional digit string `ds` read after a decimal point:
`digitsToNat ds / 10 ^ ds.length`. -/
def fracVal (ds : List Char) : ℚ :=
  (digitsToNat ds : ℚ) / ((10 : ℚ) ^ ds.length)

/-- Decimal-literal prefix scan of `parseFloat` (after the optional
sign): the longest prefix of the form `digits`, `digits.digits` or
`.digits` is converted; `none` (NaN) if no such prefix exists.
Exponents never arise here because the callers strip every character
other than digits, `.` and `-` first. -/
def parseMantissa (l : List Char) : Option ℚ :=
  let intPart := (takeDigits l).1
  let rest := (takeDigits l).2
  let fracPart := (takeDigits rest.tail).1
  if intPart = [] then
    if rest.headD ' ' = '.' ∧ fracPart ≠ [] then some (fracVal fracPart) else none
  else
    if rest.headD ' ' = '.' then some ((digitsToNat intPart : ℚ) + fracVal fracPart)
    else some ((digitsToNat intPart : ℚ))

/-- JavaScript `parseFloat` restricted to the strings produced by
`stripAmount` (no whitespace, no exponent): an optional sign followed by
a decimal-literal prefix; `none` models NaN. -/
def jsParseFloat (s : String) : Option ℚ :=
  if s.toList.headD ' ' = '-' then (parseMantissa s.toList.tail).map (fun q => -q)
  else if s.toList.headD ' ' = '+' then parseMantissa s.toList.tail
  else parseMantissa s.toList

/-- `parseFloat(raw.replace(/[^0-9.-]+/g, "") || '0')` from
`src/index.jsx` line 370 (the `|| '0'` replaces an empty stripped string
by `'0'`, because the empty string is falsy). `none` models NaN. -/
def parseAmount (raw : String) : Option ℚ :=
  let t := stripAmount raw
  jsParseFloat (if t = "" then "0" else t)

/-- `parseFloat(parsedJson.amount?.replace(...) || '0')`: a missing
`amount` field short-circuits to `'0'` via optional chaining. -/
def computeParsedAmount (amount : Option String) : Option ℚ :=
  match amount with
  | some s => parseAmount s
  | none => jsParseFloat "0"

/-- Prefix test on character lists. -/
def prefixList : List Char → List Char → Bool
  | [], _ => true
  | _ :: _, [] => false
  | a :: as, b :: bs => a = b && prefixList as bs

/-- Occurrence of `sub` as a contiguous segment of `l`. -/
def infixList (sub : List Char) : List Char → Bool
  | [] => prefixList sub []
  | b :: bs => prefixList sub (b :: bs) || infixList sub bs

/-- `s.includes(sub)`: substring test. -/
def strIncludes (s sub : String) : Bool :=
  infixList sub.toList s.toList

/-- `s.toLowerCase()` (simple ASCII lowering; all other characters,
including the Thai labels used by the app, are fixed). -/
def lowerStr (s : String) : String :=
  String.mk (s.toList.map Char.toLower)

/-- `s.trim()`: drop leading and trailing whitespace. -/
def jsTrim (s : String) : String :=
  String.mk ((((s.toList.dropWhile Char.isWhitespace).reverse.dropWhile
    Char.isWhitespace).reverse))

/-- Bank-name canonicalization of `src/index.jsx` lines 619-629: trim,
then the first matching substring rule wins (`krungsri`, then
`กสิกร`/`kasikorn`, then `scb`/`ไทยพาณิชย์`); unmatched names pass
through trimmed. -/
def canonicalizeBankName (raw : String) : String :=
  let bank := jsTrim raw
  if strIncludes (lowerStr bank) "krungsri" then "กรุงศรี"
  else if strIncludes bank "กสิกร" || strIncludes (lowerStr bank) "kasikorn" then "กสิกรไทย"
  else if strIncludes (lowerStr bank) "scb" || strIncludes bank "ไทยพาณิชย์" then "ไทยพาณิชย์"
  else bank

/-! ## Data model -/

/-- JavaScript truthiness for an optional string field: a field is
"present" exactly when it is neither null/undefined nor the empty
string. -/
def truthyStr (o : Option String) : Option String :=
  match o with
  | some s => if s = "" then none else some s
  | none => none

/-- `field || ''`. -/
def orEmpty (o : Option String) : String := o.getD ""

/-- `parsedAmount || 0`: NaN (`none`) and 0 are falsy, so both collapse
to 0. -/
def amountOr0 (o : Option ℚ) : ℚ := o.getD 0

/-- The eleven string fields of the fixed extraction schema
(`responseSchema` of `src/index.jsx` lines 329-349). -/
structure Fields where
  senderName : Option String
  recipientName : Option String
  amount : Option String
  transactionDate : Option String
  transactionTime : Option String
  transactionId : Option String
  senderBankName : Option String
  senderBankAccountNumber : Option String
  recipientBankName : Option String
  recipientBankAccountNumber : Option String
  country : Option String
deriving DecidableEq

/-- `{ ...parsedJson, parsedAmount }`: the normalized extraction
payload. -/
structure Extracted where
  fields : Fields
  parsedAmount : Option ℚ
deriving DecidableEq

/-- One element of the `extractedData` array: `{ imageId, data }` with
the payload present (the shape every aggregation consumes). -/
structure Slip where
  imageId : String
  data : Extracted
deriving DecidableEq

/-- One element of the prior-results collection consulted by the dedup
check; the payload may be null (`none`). -/
structure ExtractionItem where
  imageId : String
  data : Option Extracted
deriving DecidableEq

/-- One element of `selectedImages`: `{ id, dataUrl }`. -/
structure ImageAsset where
  id : String
  dataUrl : String
deriving DecidableEq

/-- One persisted slip document
(`{ id, dataUrl, timestamp, extractedData }`). -/
structure StoreRecord where
  id : String
  dataUrl : String
  timestamp : Nat
  extractedData : Option Extracted
deriving DecidableEq

/-! ## Stable sort (`Array.prototype.sort` with a consistent numeric
comparator, which modern engines perform stably) -/

/-- Insert `x` in front of the first element `y` it may precede
(`keep x y = true` means `x` may stay before `y`). -/
def insertSorted (keep : α → α → Bool) (x : α) : List α → List α
  | [] => [x]
  | y :: ys => if keep x y then x :: y :: ys else y :: insertSorted keep x ys

/-- Stable insertion sort: an element is placed before every later
element it compares equal to. -/
def sortWith (keep : α → α → Bool) : List α → List α
  | [] => []
  | x :: xs => insertSorted keep x (sortWith keep xs)

theorem insertSorted_perm (keep : α → α → Bool) (x : α) (l : List α) :
    List.Perm (insertSorted keep x l) (x :: l) := by
  induction l with
  | nil => exact List.Perm.refl _
  | cons y ys ih =>
    by_cases h : keep x y = true
    · simp only [insertSorted, h, if_true]
      exact List.Perm.refl _
    · simp only [insertSorted, h, if_false]
      exact (ih.cons y).trans (List.Perm.swap x y ys)

theorem sortWith_perm (keep : α → α → Bool) (l : List α) :
    List.Perm (sortWith keep l) l := by
  induction l with
  | nil => exact List.Perm.refl _
  | cons x xs ih => exact (insertSorted_perm keep x (sortWith keep xs)).trans (ih.cons x)

theorem mem_sortWith (keep : α → α → Bool) (l : List α) (x : α) :
    x ∈ sortWith keep l ↔ x ∈ l :=
  (sortWith_perm keep l).mem_iff

theorem pairwise_insertSorted {R : α → α → Prop} {keep : α → α → Bool}
    (hkeep : ∀ x y, keep x y = true → R x y)
    (htot : ∀ x y, keep x y = false → R y x)
    (htrans : Transitive R) (x : α) :
    ∀ l : List α, List.Pairwise R l → List.Pairwise R (insertSorted keep x l) := by
  intro l
  induction l with
  | nil => intro _; simp [insertSorted]
  | cons y ys ih =>
    intro hl
    rcases List.pairwise_cons.mp hl with ⟨hy, hys⟩
    simp only [insertSorted]
    by_cases h : keep x y = true
    · rw [if_pos h]
      refine List.pairwise_cons.mpr ⟨?_, hl⟩
      intro z hz
      rcases List.mem_cons.mp hz with rfl | hz
      · exact hkeep x z h
      · exact htrans (hkeep x y h) (hy z hz)
    · rw [if_neg h]
      refine List.pairwise_cons.mpr ⟨?_, ih hys⟩
      intro z hz
      rcases List.mem_cons.mp ((insertSorted_perm keep x ys).mem_iff.mp hz) with rfl | hz
      · exact htot z y (Bool.eq_false_iff.mpr h)
      · exact hy z hz

theorem pairwise_sortWith {R : α → α → Prop} {keep : α → α → Bool}
    (hkeep : ∀ x y, keep x y = true → R x y)
    (htot : ∀ x y, keep x y = false → R y x)
    (htrans : Transitive R) (l : List α) :
    List.Pairwise R (sortWith keep l) := by
  induction l with
  | nil => simp [sortWith]
  | cons x xs ih => exact pairwise_insertSorted hkeep htot htrans x _ ih

/-- Stability of the descending-by-rank sort: for each rank class the
output lists exactly the input elements of that class, in input order. -/
theorem filter_insertSorted_rank (rank : α → Nat) (c : Nat) (x : α) (l : List α) :
    (insertSorted (fun a b => decide (rank b ≤ rank a)) x l).filter
        (fun y => rank y == c) =
      if rank x = c then x :: l.filter (fun y => rank y == c)
      else l.filter (fun y => rank y == c) := by
  induction l with
  | nil =>
    simp only [insertSorted]
    by_cases hx : rank x = c <;> simp [List.filter_cons, hx]
  | cons y ys ih =>
    simp only [insertSorted]
    by_cases h : rank y ≤ rank x
    · rw [if_pos (by simpa using h)]
      by_cases hx : rank x = c <;> by_cases hy : rank y = c <;>
        simp [List.filter_cons, hx, hy]
    · rw [if_neg (by simpa using h)]
      rw [List.filter_cons, List.filter_cons, ih]
      by_cases hx : rank x = c <;> by_cases hy : rank y = c
      · exact absurd (le_of_eq (hy.trans hx.symm)) h
      · simp [hx, hy]
      · simp [hx, hy]
      · simp [hx, hy]

theorem filter_sortWith_rank (rank : α → Nat) (c : Nat) (l : List α) :
    (sortWith (fun a b => decide (rank b ≤ rank a)) l).filter (fun y => rank y == c) =
      l.filter (fun y => rank y == c) := by
  induction l with
  | nil => rfl
  | cons x xs ih =>
    simp only [sortWith, filter_insertSorted_rank, ih, List.filter_cons]
    by_cases hx : rank x = c <;> simp [hx]

/-! ## JavaScript object model: insertion-ordered association lists and
the ECMAScript own-property enumeration order -/

/-- Numeric value of a candidate array-index key (meaningful only for
all-digit strings, the ones `isArrayIndexKey` accepts). -/
def keyNum (s : String) : Nat := digitsToNat s.toList

/-- A property key is an array index iff it is the canonical decimal
representation of an integer `0 ≤ n < 2^32 - 1` (non-empty, all digits,
no leading zero except `"0"` itself); `Object.keys` enumerates these
first, in ascending numeric order. -/
def isArrayIndexKey (s : String) : Bool :=
  !s.toList.isEmpty && s.toList.all Char.isDigit &&
    (s == "0" || !(s.toList.headD ' ' = '0')) && decide (keyNum s < 4294967295)

/-- `Object.keys` enumeration order: canonical array-index keys in
ascending numeric order, then the remaining string keys in insertion
order. -/
def objectKeysOrder (ks : List String) : List String :=
  sortWith (fun a b => decide (keyNum a ≤ keyNum b)) (ks.filter isArrayIndexKey)
    ++ ks.filter (fun k => !isArrayIndexKey k)

theorem mem_objectKeysOrder (ks : List String) (k : String) :
    k ∈ objectKeysOrder ks ↔ k ∈ ks := by
  simp only [objectKeysOrder, List.mem_append, mem_sortWith, List.mem_filter]
  by_cases h : isArrayIndexKey k = true <;> simp [h]

theorem nodup_objectKeysOrder (ks : List String) (h : ks.Nodup) :
    (objectKeysOrder ks).Nodup := by
  refine List.Nodup.append ?_ (h.filter _) ?_
  · exact ((sortWith_perm _ _).nodup_iff).mpr (h.filter _)
  · intro k hk1 hk2
    rw [mem_sortWith, List.mem_filter] at hk1
    rw [List.mem_filter] at hk2
    rw [hk1.2] at hk2
    simpa using hk2.2

/-! ## Grouping maps (`obj[key] = ...` accumulation loops) -/

/-- One `obj[k]`-update of a grouping object: if `k` is present, apply
`f` to its value in place; otherwise append `(k, f v0)` (a fresh key is
inserted with the initial value `v0` and immediately updated, as the
source loops do). -/
def bumpWith (k : String) (v0 : σ) (f : σ → σ) : List (String × σ) → List (String × σ)
  | [] => [(k, f v0)]
  | (k2, v) :: rest =>
    if k2 = k then (k2, f v) :: rest else (k2, v) :: bumpWith k v0 f rest

/-- The `results.forEach` accumulation loop: each item with a present
key updates the grouping object, keyless items are skipped. -/
def buildMapGo (keyF : Slip → Option String) (initF : Slip → σ) (updF : Slip → σ → σ)
    (m : List (String × σ)) : List Slip → List (String × σ)
  | [] => m
  | it :: rest =>
    match keyF it with
    | some k => buildMapGo keyF initF updF (bumpWith k (initF it) (updF it) m) rest
    | none => buildMapGo keyF initF updF m rest

/-- Grouping object built from an empty object. -/
def buildMap (keyF : Slip → Option String) (initF : Slip → σ) (updF : Slip → σ → σ)
    (l : List Slip) : List (String × σ) :=
  buildMapGo keyF initF updF [] l

/-- Net effect of a run of same-key items on that key's stored value. -/
def applyItems (initF : Slip → σ) (updF : Slip → σ → σ) : Option σ → List Slip → Option σ
  | prior, [] => prior
  | prior, it :: rest => applyItems initF updF (some (updF it (prior.getD (initF it)))) rest

theorem lookup_bumpWith_self (k : String) (v0 : σ) (f : σ → σ) (m : List (String × σ)) :
    (bumpWith k v0 f m).lookup k = some (f ((m.lookup k).getD v0)) := by
  induction m with
  | nil => simp [bumpWith, List.lookup]
  | cons p rest ih =>
    rcases p with ⟨k2, v⟩
    by_cases h : k2 = k
    · subst h
      simp [bumpWith, List.lookup]
    · have hbeq : (k == k2) = false := by
        simpa using fun hk => h hk.symm
      simp [bumpWith, h, List.lookup, hbeq, ih]

theorem lookup_bumpWith_other (k k2 : String) (v0 : σ) (f : σ → σ)
    (m : List (String × σ)) (hne : k2 ≠ k) :
    (bumpWith k v0 f m).lookup k2 = m.lookup k2 := by
  have hbeq0 : (k2 == k) = false := by simpa using hne
  induction m with
  | nil => simp [bumpWith, List.lookup, hbeq0]
  | cons p rest ih =>
    rcases p with ⟨k3, v⟩
    by_cases h : k3 = k
    · subst h
      have hbeq : (k2 == k3) = false := by simpa using hne
      simp [bumpWith, List.lookup, hbeq]
    · simp [bumpWith, h, List.lookup, ih]

theorem lookup_buildMapGo (keyF : Slip → Option String) (initF : Slip → σ)
    (updF : Slip → σ → σ) (l : List Slip) :
    ∀ (m : List (String × σ)) (k : String),
      (buildMapGo keyF initF updF m l).lookup k =
        applyItems initF updF (m.lookup k) (l.filter (fun it => keyF it == some k)) := by
  induction l with
  | nil => intro m k; simp [buildMapGo, applyItems]
  | cons it rest ih =>
    intro m k
    rcases hkey : keyF it with _ | k2
    · have hfalse : (keyF it == some k) = false := by simp [hkey]
      simp [buildMapGo, hkey, List.filter_cons, hfalse, ih]
    · by_cases hk : k2 = k
      · subst hk
        have htrue : (keyF it == some k2) = true := by simp [hkey]
        simp only [buildMapGo, hkey]
        rw [ih, lookup_bumpWith_self, List.filter_cons, if_pos htrue]
        rfl
      · simp only [buildMapGo, hkey]
        rw [ih, lookup_bumpWith_other k2 k (initF it) (updF it) m (fun h => hk h.symm),
          List.filter_cons, if_neg (by simp [hkey, hk])]

theorem lookup_buildMap (keyF : Slip → Option String) (initF : Slip → σ)
    (updF : Slip → σ → σ) (l : List Slip) (k : String) :
    (buildMap keyF initF updF l).lookup k =
      applyItems initF updF none (l.filter (fun it => keyF it == some k)) := by
  simpa [List.lookup] using lookup_buildMapGo keyF initF updF l [] k

theorem keys_bumpWith (k : String) (v0 : σ) (f : σ → σ) (m : List (String × σ)) :
    (bumpWith k v0 f m).map Prod.fst =
      if k ∈ m.map Prod.fst then m.map Prod.fst else m.map Prod.fst ++ [k] := by
  induction m with
  | nil => simp [bumpWith]
  | cons p rest ih =>
    rcases p with ⟨k2, v⟩
    by_cases h : k2 = k
    · subst h
      simp [bumpWith]
    · have : ¬ k = k2 := fun hk => h hk.symm
      simp only [bumpWith, h, if_false, List.map_cons, List.mem_cons, this, false_or, ih]
      by_cases hk : k ∈ rest.map Prod.fst <;> simp [hk]

theorem mem_keys_buildMapGo (keyF : Slip → Option String) (initF : Slip → σ)
    (updF : Slip → σ → σ) (l : List Slip) :
    ∀ (m : List (String × σ)) (k : String),
      k ∈ (buildMapGo keyF initF updF m l).map Prod.fst ↔
        k ∈ m.map Prod.fst ∨ ∃ it ∈ l, keyF it = some k := by
  induction l with
  | nil => intro m k; simp [buildMapGo]
  | cons it rest ih =>
    intro m k
    rcases hkey : keyF it with _ | k2
    · simp only [buildMapGo, hkey, ih, List.mem_cons]
      constructor
      · rintro (h | ⟨x, hx, hfx⟩)
        · exact Or.inl h
        · exact Or.inr ⟨x, Or.inr hx, hfx⟩
      · rintro (h | ⟨x, (rfl | hx), hfx⟩)
        · exact Or.inl h
        · simp [hkey] at hfx
        · exact Or.inr ⟨x, hx, hfx⟩
    · simp only [buildMapGo, hkey, ih, keys_bumpWith, List.mem_cons]
      by_cases hmem : k2 ∈ m.map Prod.fst
      · rw [if_pos hmem]
        constructor
        · rintro (h | ⟨x, hx, hfx⟩)
          · exact Or.inl h
          · exact Or.inr ⟨x, Or.inr hx, hfx⟩
        · rintro (h | ⟨x, (rfl | hx), hfx⟩)
          · exact Or.inl h
          · rw [hkey] at hfx
            exact Or.inl (Option.some_injective _ hfx ▸ hmem)
          · exact Or.inr ⟨x, hx, hfx⟩
      · rw [if_neg hmem]
        simp only [List.mem_append, List.mem_singleton]
        constructor
        · rintro ((h | rfl) | ⟨x, hx, hfx⟩)
          · exact Or.inl h
          · exact Or.inr ⟨it, Or.inl rfl, hkey⟩
          · exact Or.inr ⟨x, Or.inr hx, hfx⟩
        · rintro (h | ⟨x, (rfl | hx), hfx⟩)
          · exact Or.inl (Or.inl h)
          · rw [hkey] at hfx
            exact Or.inl (Or.inr (Option.some_injective _ hfx).symm)
          · exact Or.inr ⟨x, hx, hfx⟩

theorem mem_keys_buildMap (keyF : Slip → Option String) (initF : Slip → σ)
    (updF : Slip → σ → σ) (l : List Slip) (k : String) :
    k ∈ (buildMap keyF initF updF l).map Prod.fst ↔ ∃ it ∈ l, keyF it = some k := by
  simpa using mem_keys_buildMapGo keyF initF updF l [] k

theorem nodup_keys_buildMapGo (keyF : Slip → Option String) (initF : Slip → σ)
    (updF : Slip → σ → σ) (l : List Slip) :
    ∀ m : List (String × σ), (m.map Prod.fst).Nodup →
      ((buildMapGo keyF initF updF m l).map Prod.fst).Nodup := by
  induction l with
  | nil => intro m hm; simpa [buildMapGo] using hm
  | cons it rest ih =>
    intro m hm
    rcases hkey : keyF it with _ | k2
    · simp only [buildMapGo, hkey]
      exact ih m hm
    · simp only [buildMapGo, hkey]
      refine ih _ ?_
      rw [keys_bumpWith]
      by_cases hmem : k2 ∈ m.map Prod.fst
      · rwa [if_pos hmem]
      · rw [if_neg hmem]
        refine List.Nodup.append hm (List.nodup_singleton k2) ?_
        intro a ha hb
        rw [List.mem_singleton] at hb
        subst hb
        exact hmem ha

theorem nodup_keys_buildMap (keyF : Slip → Option String) (initF : Slip → σ)
    (updF : Slip → σ → σ) (l : List Slip) :
    ((buildMap keyF initF updF l).map Prod.fst).Nodup :=
  nodup_keys_buildMapGo keyF initF updF l [] (by simp)

theorem isSome_lookup_iff_mem_keys (m : List (String × σ)) (k : String) :
    (m.lookup k).isSome = true ↔ k ∈ m.map Prod.fst := by
  induction m with
  | nil => simp [List.lookup]
  | cons p rest ih =>
    rcases p with ⟨k2, v⟩
    by_cases h : k = k2
    · subst h
      simp [List.lookup]
    · have hbeq : (k == k2) = false := by simpa using h
      simp [List.lookup, hbeq, ih, h]

/-! ## Aggregation Engine -/

/-- Count of the items of `l` grouped under key `k` by `keyF`. -/
def keyCount (keyF : Slip → Option String) (l : List Slip) (k : String) : Nat :=
  (l.filter (fun it => keyF it == some k)).length

/-- A counting object (`m[k] = (m[k] || 0) + 1`). -/
def countMap (keyF : Slip → Option String) (l : List Slip) : List (String × Nat) :=
  buildMap keyF (fun _ => 0) (fun _ n => n + 1) l

theorem applyItems_count (items : List Slip) :
    ∀ prior : Option Nat,
      applyItems (fun _ => (0 : Nat)) (fun _ n => n + 1) prior items =
        if items.isEmpty then prior else some (prior.getD 0 + items.length) := by
  induction items with
  | nil => intro prior; simp [applyItems]
  | cons it rest ih =>
    intro prior
    simp only [applyItems, ih, List.isEmpty_cons, if_false, Bool.false_eq_true]
    by_cases h : rest.isEmpty = true
    · rw [if_pos h]
      rw [List.isEmpty_iff] at h
      subst h
      simp
    · rw [if_neg h]
      simp only [Option.getD_some, List.length_cons]
      congr 1
      omega

theorem lookup_countMap (keyF : Slip → Option String) (l : List Slip) (k : String) :
    (countMap keyF l).lookup k =
      if keyCount keyF l k = 0 then none else some (keyCount keyF l k) := by
  rw [countMap, lookup_buildMap, applyItems_count]
  rcases hf : l.filter (fun it => keyF it == some k) with _ | ⟨x, xs⟩
  · simp [keyCount, hf]
  · simp [keyCount, hf]

/-- Key under which `dailyFrequencyData` groups a slip: its (truthy)
`transactionDate`. -/
def dateKey (it : Slip) : Option String :=
  truthyStr it.data.fields.transactionDate

/-- One bar of the daily-frequency chart. -/
structure DateCount where
  date : String
  count : Nat
deriving DecidableEq

/-- The `dataArray` of `dailyFrequencyData` before sorting: one entry
per distinct date, in `Object.keys` enumeration order. -/
def dailyFrequencyArr (results : List Slip) : List DateCount :=
  let m := countMap dateKey results
  (objectKeysOrder (m.map Prod.fst)).map (fun d => ⟨d, (m.lookup d).getD 0⟩)

/-- `dailyFrequencyData` (`src/index.jsx` lines 556-573): count slips
per truthy `transactionDate`, then sort by count descending. -/
def dailyFrequencyData (results : List Slip) : List DateCount :=
  sortWith (fun a b => decide (b.count ≤ a.count)) (dailyFrequencyArr results)

/-- Key under which `topRecipientAccountsData` groups a slip: its
(truthy) `recipientBankAccountNumber`. -/
def accKey (it : Slip) : Option String :=
  truthyStr it.data.fields.recipientBankAccountNumber

/-- `item.data.parsedAmount || 0` for a slip. -/
def amountOf (it : Slip) : ℚ := amountOr0 it.data.parsedAmount

/-- `item.data.recipientBankName || ''` for a slip. -/
def bankOf (it : Slip) : String := orEmpty it.data.fields.recipientBankName

/-- Accumulated per-account statistics
(`{ count, totalAmount, bankName }`). -/
structure AccountStats where
  count : Nat
  totalAmount : ℚ
  bankName : String
deriving DecidableEq

/-- Fresh `accountStatsMap[acc]` entry before its first update. -/
def statsInit (it : Slip) : AccountStats := ⟨0, 0, bankOf it⟩

/-- One pass of the accumulation body: bump the count, add the amount,
and fill in the bank name if it is still empty and this slip has one. -/
def statsUpd (it : Slip) (st : AccountStats) : AccountStats :=
  ⟨st.count + 1, st.totalAmount + amountOf it,
   if st.bankName = "" ∧ bankOf it ≠ "" then bankOf it else st.bankName⟩

/-- The `accountStatsMap` grouping object. -/
def statsMap (results : List Slip) : List (String × AccountStats) :=
  buildMap accKey statsInit statsUpd results

theorem applyItems_stats (items : List Slip) :
    ∀ st : AccountStats,
      applyItems statsInit statsUpd (some st) items =
        some ⟨st.count + items.length, st.totalAmount + ((items.map amountOf).sum),
          if st.bankName = "" then
            (((items.map bankOf).find? (fun b => !(b == ""))).getD "")
          else st.bankName⟩ := by
  induction items with
  | nil =>
    intro st
    rcases st with ⟨c, t, b⟩
    by_cases hb : b = "" <;> simp [applyItems, hb]
  | cons it rest ih =>
    intro st
    rcases st with ⟨c, t, b⟩
    simp only [applyItems, Option.getD_some]
    rw [ih]
    simp only [statsUpd, Option.some.injEq, AccountStats.mk.injEq, List.map_cons,
      List.sum_cons, List.length_cons]
    refine ⟨by omega, by ring, ?_⟩
    by_cases hb : b = ""
    · by_cases hbi : bankOf it = "" <;>
        simp [hb, hbi, List.find?_cons]
    · simp [hb]

/-- Key under which `bankUsageData` groups a slip: the canonicalized
form of its (truthy) `recipientBankName`. -/
def bankKey (it : Slip) : Option String :=
  (truthyStr it.data.fields.recipientBankName).map canonicalizeBankName

/-- One slice of the bank-usage pie chart. -/
structure BankCount where
  name : String
  value : Nat
deriving DecidableEq

/-- `bankUsageData` (`src/index.jsx` lines 614-644): count slips per
canonical recipient bank name, then sort by count descending. -/
def bankUsageData (results : List Slip) : List BankCount :=
  let m := countMap bankKey results
  sortWith (fun a b => decide (b.value ≤ a.value))
    ((objectKeysOrder (m.map Prod.fst)).map (fun b => ⟨b, (m.lookup b).getD 0⟩))

/-- One row of the top-recipient-accounts table. -/
structure AccountEntry where
  accountNumber : String
  transactionCount : Nat
  totalAmountTransferred : ℚ
  bankName : String
deriving DecidableEq

/-- The row built from one `accountStatsMap` entry:
`{ accountNumber, transactionCount, totalAmountTransferred, bankName || '-' }`. -/
def accountEntryOf (m : List (String × AccountStats)) (a : String) : AccountEntry :=
  let st := (m.lookup a).getD ⟨0, 0, ""⟩
  ⟨a, st.count, st.totalAmount, if st.bankName = "" then "-" else st.bankName⟩

/-- The `sortedAccounts` array of `src/index.jsx` lines 600-607 before
`slice(0, 5)`: one row per account, sorted by transaction count
descending. -/
def sortedAccountsData (results : List Slip) : List AccountEntry :=
  sortWith (fun a b => decide (b.transactionCount ≤ a.transactionCount))
    ((objectKeysOrder ((statsMap results).map Prod.fst)).map
      (accountEntryOf (statsMap results)))

/-- `topRecipientAccountsData` (`src/index.jsx` lines 576-611):
accumulate per-account statistics, convert to rows (`bankName || '-'`),
sort by transaction count descending, and keep the first five. -/
def topRecipientAccountsData (results : List Slip) : List AccountEntry :=
  (sortedAccountsData results).take 5

/-- Summed `parsedAmount || 0` over the results grouped under account
number `a`. -/
def accountTotal (results : List Slip) (a : String) : ℚ :=
  ((results.filter (fun it => accKey it == some a)).map amountOf).sum

/-- The first non-empty recipient bank name seen among the results
grouped under account number `a`, or the placeholder `"-"`. -/
def accountBankDisplay (results : List Slip) (a : String) : String :=
  match ((results.filter (fun it => accKey it == some a)).map bankOf).find?
      (fun b => !(b == "")) with
  | some b => b
  | none => "-"

/-- `field?.toLowerCase().includes(lowerCaseQuery)`: a nullish field is
falsy via optional chaining. -/
def optFieldMatches (f : Option String) (q : String) : Bool :=
  match f with
  | some s => strIncludes (lowerStr s) q
  | none => false

/-- `filteredExtractedData` (`src/index.jsx` lines 530-552): an empty
query returns the input; otherwise keep the items in which the image id
or any extraction field contains the lowercased query. -/
def filteredExtractedData (results : List Slip) (searchQuery : String) : List Slip :=
  if searchQuery = "" then results
  else
    let q := lowerStr searchQuery
    results.filter (fun item =>
      strIncludes (lowerStr item.imageId) q ||
      optFieldMatches item.data.fields.senderName q ||
      optFieldMatches item.data.fields.recipientName q ||
      optFieldMatches item.data.fields.amount q ||
      optFieldMatches item.data.fields.transactionDate q ||
      optFieldMatches item.data.fields.transactionTime q ||
      optFieldMatches item.data.fields.transactionId q ||
      optFieldMatches item.data.fields.senderBankName q ||
      optFieldMatches item.data.fields.senderBankAccountNumber q ||
      optFieldMatches item.data.fields.recipientBankName q ||
      optFieldMatches item.data.fields.recipientBankAccountNumber q ||
      optFieldMatches item.data.fields.country q)

/-- All string-valued fields of a result: the image id and every
present extraction field. -/
def stringFieldValues (it : Slip) : List String :=
  it.imageId ::
    ([it.data.fields.senderName, it.data.fields.recipientName, it.data.fields.amount,
      it.data.fields.transactionDate, it.data.fields.transactionTime,
      it.data.fields.transactionId, it.data.fields.senderBankName,
      it.data.fields.senderBankAccountNumber, it.data.fields.recipientBankName,
      it.data.fields.recipientBankAccountNumber,
      it.data.fields.country].filterMap (fun o => o))

/-! ## Export document (`generateCsv`) -/

/-- The fixed thirteen-column header row of the export document. -/
def csvHeaders : List String :=
  ["Image ID", "View Image URL", "ชื่อผู้ส่ง", "ชื่อผู้รับ", "จำนวนเงิน", "วันที่ทำรายการ",
   "เวลาทำรายการ", "รหัสอ้างอิงการทำรายการ", "ชื่อธนาคารต้นทาง",
   "เลขบัญชีต้นทาง", "ชื่อธนาคารปลายทาง", "เลขบัญชีปลายทาง", "ประเทศ"]

/-- Per-row image-viewer URL
(`viewerUrlBase?imageId=...&appId=...&userId=...`). -/
def viewUrl (base appId userId id : String) : String :=
  base ++ "?imageId=" ++ id ++ "&appId=" ++ appId ++ "&userId=" ++ userId

/-- The thirteen field values pushed for one row, in column order
(missing fields become the empty string via `|| ''`). -/
def rowValues (base appId userId : String) (s : Slip) : List String :=
  [s.imageId, viewUrl base appId userId s.imageId,
   orEmpty s.data.fields.senderName, orEmpty s.data.fields.recipientName,
   orEmpty s.data.fields.amount, orEmpty s.data.fields.transactionDate,
   orEmpty s.data.fields.transactionTime, orEmpty s.data.fields.transactionId,
   orEmpty s.data.fields.senderBankName, orEmpty s.data.fields.senderBankAccountNumber,
   orEmpty s.data.fields.recipientBankName,
   orEmpty s.data.fields.recipientBankAccountNumber, orEmpty s.data.fields.country]

/-- `String(field).replace(/"/g, '""')`: double every quote. -/
def escapeQuotes : List Char → List Char
  | [] => []
  | c :: rest => if c = '"' then '"' :: '"' :: escapeQuotes rest else c :: escapeQuotes rest

/-- `"${...}"`: a fully quoted CSV field. -/
def encodeField (s : String) : List Char :=
  '"' :: (escapeQuotes s.toList ++ ['"'])

/-- `Array.prototype.join(sep)` on character lists. -/
def joinSep (sep : List Char) : List (List Char) → List Char
  | [] => []
  | [x] => x
  | x :: y :: rest => x ++ sep ++ joinSep sep (y :: rest)

/-- `generateCsv` (`src/index.jsx` lines 211-248): the unquoted header
row followed by one row per item in input order, every data field
quoted with quotes doubled; rows are joined with newlines. -/
def generateCsv (base appId userId : String) (data : List Slip) : String :=
  String.mk (joinSep ['\n']
    (joinSep [','] (csvHeaders.map String.toList) ::
      data.map (fun s => joinSep [','] ((rowValues base appId userId s).map encodeField))))

/-! ## CSV splitting. Modelled from the spec: "splitting the output
back into rows and columns respecting CSV quoting" — a standard CSV
reader: a comma or newline outside quotes separates fields or rows, a
quote at the start of a field opens a quoted field, and a doubled quote
inside a quoted field denotes one literal quote. -/

/-- Reader mode: inside an unquoted field, inside a quoted field, or
just after a quote inside a quoted field. -/
inductive CsvMode
  | unq
  | q
  | qq
deriving DecidableEq

/-- Reader state: finished rows, fields of the current row, characters
of the current field, and the mode. -/
structure CsvState where
  rows : List (List String)
  cur : List String
  field : List Char
  mode : CsvMode
deriving DecidableEq

/-- One character step of the CSV reader. -/
def csvStep (st : CsvState) (c : Char) : CsvState :=
  match st.mode with
  | CsvMode.q =>
    if c = '"' then { st with mode := CsvMode.qq }
    else { st with field := st.field ++ [c] }
  | CsvMode.qq =>
    if c = '"' then { st with field := st.field ++ ['"'], mode := CsvMode.q }
    else if c = ',' then
      { st with cur := st.cur ++ [String.mk st.field], field := [], mode := CsvMode.unq }
    else if c = '\n' then
      { st with rows := st.rows ++ [st.cur ++ [String.mk st.field]], cur := [],
                field := [], mode := CsvMode.unq }
    else { st with field := st.field ++ [c], mode := CsvMode.unq }
  | CsvMode.unq =>
    if c = '"' ∧ st.field = [] then { st with mode := CsvMode.q }
    else if c = ',' then { st with cur := st.cur ++ [String.mk st.field], field := [] }
    else if c = '\n' then
      { st with rows := st.rows ++ [st.cur ++ [String.mk st.field]], cur := [], field := [] }
    else { st with field := st.field ++ [c] }

/-- Flush the pending row at end of input. -/
def csvFinish (st : CsvState) : List (List String) :=
  st.rows ++ [st.cur ++ [String.mk st.field]]

/-- Split a CSV document into rows of field values, respecting
quoting. -/
def csvParse (s : String) : List (List String) :=
  csvFinish (s.toList.foldl csvStep ⟨[], [], [], CsvMode.unq⟩)

/-! ## Extraction Orchestrator (`processSlipWithAI`, `processFiles`,
the Firestore snapshot loader) -/

/-- Outcome of one Extraction Client invocation for one image:
the transport layer fails (`fetch`/`response.json()` throws), the
response carries no usable payload (no candidates/parts), the payload
text is not valid JSON (`JSON.parse` throws), or a parsed field
object. -/
inductive ExtractOutcome
  | transportFailure
  | noPayload
  | malformedJson
  | ok (fields : Fields)
deriving DecidableEq

/-- The external world seen by one batch run: the extraction service's
response and the store's write behaviour, per image id. -/
structure Env where
  extract : String → ExtractOutcome
  persistOk : String → Bool

/-- Error taxonomy of the specification (§7). -/
inductive ErrorKind
  | storeUnavailable
  | unauthenticatedCaller
  | unsupportedInput
  | transportFailure
  | malformedResponse
  | persistenceFailure
deriving DecidableEq

/-- The dedup check of `src/index.jsx` lines 285-290:
`extractedData.find(item => item.imageId === imageObj.id)` followed by
`existingExtracted && existingExtracted.data`. -/
def dedupHit (existing : List ExtractionItem) (id : String) : Option ExtractionItem :=
  (existing.find? (fun e => e.imageId == id)).bind
    (fun e => if e.data.isSome then some e else none)

/-- Contributions of one loop iteration: the result pushed (if any),
the error recorded (if any), the Extraction Client invocation (if any)
and the store write attempted (if any). -/
structure StepOut where
  res : Option ExtractionItem
  err : Option (String × ErrorKind)
  call : Option String
  write : Option String
deriving DecidableEq

/-- The try-block body for one non-deduplicated image, by response
outcome (`persist` is whether the write-back for this image succeeds):
a failed or unusable response records the matching error; a parsed
payload is normalized and written back, and the result is pushed only
when the write succeeds — a write failure raises before the push and is
recorded instead. -/
def stepOutcome (img : ImageAsset) (persist : Bool) : ExtractOutcome → StepOut
  | ExtractOutcome.transportFailure =>
    ⟨none, some (img.id, ErrorKind.transportFailure), some img.id, none⟩
  | ExtractOutcome.noPayload =>
    ⟨none, some (img.id, ErrorKind.malformedResponse), some img.id, none⟩
  | ExtractOutcome.malformedJson =>
    ⟨none, some (img.id, ErrorKind.malformedResponse), some img.id, none⟩
  | ExtractOutcome.ok f =>
    let ext : Extracted := ⟨f, computeParsedAmount f.amount⟩
    if persist then
      ⟨some ⟨img.id, some ext⟩, none, some img.id, some img.id⟩
    else
      ⟨none, some (img.id, ErrorKind.persistenceFailure), some img.id, some img.id⟩

/-- One iteration of the `for (const imageObj of selectedImages)` loop
of `processSlipWithAI` (`src/index.jsx` lines 283-393): skip if a prior
result with a payload exists; otherwise run the try-block body — every
failure is caught, recorded, and falls through to the next image. -/
def stepImage (env : Env) (existing : List ExtractionItem) (img : ImageAsset) : StepOut :=
  (dedupHit existing img.id).elim
    (stepOutcome img (env.persistOk img.id) (env.extract img.id))
    (fun e => ⟨some e, none, none, none⟩)

/-- Accumulated outputs of a batch run: the `updatedExtractedData`
array, the trace of recorded errors, of client invocations and of
attempted store writes, in loop order. -/
structure BatchResult where
  results : List ExtractionItem
  errors : List (String × ErrorKind)
  calls : List String
  writes : List String
deriving DecidableEq

/-- The batch loop, accumulating every iteration's contributions. -/
def processBatchGo (env : Env) (existing : List ExtractionItem) (acc : BatchResult) :
    List ImageAsset → BatchResult
  | [] => acc
  | img :: rest =>
    let s := stepImage env existing img
    processBatchGo env existing
      ⟨acc.results ++ s.res.toList, acc.errors ++ s.err.toList,
       acc.calls ++ s.call.toList, acc.writes ++ s.write.toList⟩ rest

/-- One run of `processSlipWithAI` over `images`, deduplicating against
the `extractedData` snapshot `existing` captured at batch start. -/
def processBatch (env : Env) (images : List ImageAsset) (existing : List ExtractionItem) :
    BatchResult :=
  processBatchGo env existing ⟨[], [], [], []⟩ images

/-- The document written for a freshly ingested image by `processFiles`
(`src/index.jsx` lines 147-152): the extraction payload starts out
null. -/
def ingestRecord (id dataUrl : String) (now : Nat) : StoreRecord :=
  ⟨id, dataUrl, now, none⟩

/-- The images loaded by the snapshot listener (`src/index.jsx` lines
84-94): records with a truthy id and data URL, sorted by timestamp
ascending. -/
def loadedImagesOf (records : List StoreRecord) : List StoreRecord :=
  sortWith (fun a b => decide (a.timestamp ≤ b.timestamp))
    (records.filter (fun r => !(r.id == "") && !(r.dataUrl == "")))

/-- Timestamp used to order a loaded result: the timestamp of the
loaded image with the same id, or 0. -/
def loadTimestamp (records : List StoreRecord) (id : String) : Nat :=
  match (loadedImagesOf records).find? (fun im => im.id == id) with
  | some im => im.timestamp
  | none => 0

/-- The prior results loaded by the snapshot listener (`src/index.jsx`
lines 84-99): one `{ imageId, data }` entry per record with a truthy
id/data URL and a non-null extraction payload, sorted by the matching
image's timestamp. -/
def loadExtractedData (records : List StoreRecord) : List ExtractionItem :=
  sortWith (fun a b =>
      decide (loadTimestamp records a.imageId ≤ loadTimestamp records b.imageId))
    ((records.filter (fun r => !(r.id == "") && !(r.dataUrl == ""))).filterMap
      (fun r => r.extractedData.map (fun d => ExtractionItem.mk r.id (some d))))

theorem processBatchGo_eq (env : Env) (existing : List ExtractionItem) :
    ∀ (images : List ImageAsset) (acc : BatchResult),
      processBatchGo env existing acc images =
        ⟨acc.results ++ images.filterMap (fun i => (stepImage env existing i).res),
         acc.errors ++ images.filterMap (fun i => (stepImage env existing i).err),
         acc.calls ++ images.filterMap (fun i => (stepImage env existing i).call),
         acc.writes ++ images.filterMap (fun i => (stepImage env existing i).write)⟩ := by
  intro images
  induction images with
  | nil => intro acc; simp [processBatchGo]
  | cons img rest ih =>
    intro acc
    rw [processBatchGo, ih]
    simp only [List.filterMap_cons]
    rcases s : stepImage env existing img with ⟨r, e, c, w⟩
    congr 1 <;>
      [rcases r with _ | r; rcases e with _ | e; rcases c with _ | c; rcases w with _ | w] <;>
      simp

theorem processBatch_results (env : Env) (images : List ImageAsset)
    (existing : List ExtractionItem) :
    (processBatch env images existing).results =
      images.filterMap (fun i => (stepImage env existing i).res) := by
  rw [processBatch, processBatchGo_eq]
  simp

theorem processBatch_errors (env : Env) (images : List ImageAsset)
    (existing : List ExtractionItem) :
    (processBatch env images existing).errors =
      images.filterMap (fun i => (stepImage env existing i).err) := by
  rw [processBatch, processBatchGo_eq]
  simp

theorem processBatch_calls (env : Env) (images : List ImageAsset)
    (existing : List ExtractionItem) :
    (processBatch env images existing).calls =
      images.filterMap (fun i => (stepImage env existing i).call) := by
  rw [processBatch, processBatchGo_eq]
  simp

theorem processBatch_writes (env : Env) (images : List ImageAsset)
    (existing : List ExtractionItem) :
    (processBatch env images existing).writes =
      images.filterMap (fun i => (stepImage env existing i).write) := by
  rw [processBatch, processBatchGo_eq]
  simp

/-! ## Claim C1: `parseAmount` -/

theorem parseMantissa_nonneg (l : List Char) (v : ℚ) (h : parseMantissa l = some v) :
    0 ≤ v := by
  have hd : (0 : ℚ) ≤ (digitsToNat (takeDigits l).1 : ℚ) := by positivity
  have hf : ∀ ds : List Char, (0 : ℚ) ≤ fracVal ds := by
    intro ds
    unfold fracVal
    positivity
  unfold parseMantissa at h
  by_cases h1 : (takeDigits l).1 = []
  · rw [if_pos h1] at h
    by_cases h2 : (takeDigits l).2.headD ' ' = '.' ∧ (takeDigits (takeDigits l).2.tail).1 ≠ []
    · rw [if_pos h2, Option.some.injEq] at h
      exact h ▸ hf _
    · rw [if_neg h2] at h
      exact absurd h (by simp)
  · rw [if_neg h1] at h
    by_cases h2 : (takeDigits l).2.headD ' ' = '.'
    · rw [if_pos h2, Option.some.injEq] at h
      exact h ▸ add_nonneg hd (hf _)
    · rw [if_neg h2, Option.some.injEq] at h
      exact h ▸ hd


theorem jsParseFloat_nonneg (t : String) (hm : '-' ∉ t.toList) (v : ℚ)
    (h : jsParseFloat t = some v) : 0 ≤ v := by
  unfold jsParseFloat at h
  have hc : ¬ t.toList.headD ' ' = '-' := by
    intro hc
    rcases ht : t.toList with _ | ⟨c, rest⟩
    · rw [ht] at hc
      exact absurd hc (by decide)
    · rw [ht] at hc
      simp only [List.headD_cons] at hc
      exact hm (ht ▸ (hc ▸ List.mem_cons_self c rest))
  rw [if_neg hc] at h
  by_cases hp : t.toList.headD ' ' = '+'
  · rw [if_pos hp] at h
    exact parseMantissa_nonneg _ _ h
  · rw [if_neg hp] at h
    exact parseMantissa_nonneg _ _ h

theorem mem_stripAmount_toList (raw : String) (c : Char) :
    c ∈ (stripAmount raw).toList → c ∈ raw.toList := by
  intro h
  have : c ∈ raw.toList.filter amountChar := h
  exact (List.mem_filter.mp this).1

/-- C1, counterexample: `parseAmount` is not always non-negative — the
minus sign survives stripping, so `parseAmount "-5" = -5 < 0` — and it
is not never-NaN: the stripped remainder of `"."` is non-empty but
unparsable, and `parseFloat` returns NaN (`none`) on it rather than 0. -/
theorem parse_amount_counterexample :
    parseAmount "-5" = some (-5) ∧ ¬ (0 : ℚ) ≤ -5 ∧ parseAmount "." = none := by
  refine ⟨by decide, by norm_num, by decide⟩

/-- C1, amended: `parseAmount "" = 0`, `parseAmount "abc" = 0`, and any
amount text with no digit, decimal point or minus sign normalizes to 0;
moreover the result is non-negative whenever the input contains no minus
sign and the parse does not yield NaN. (The unrestricted claims
`parseAmount s ≥ 0` and "never NaN" fail: see the counterexample.) -/
theorem parse_amount_amended (s : String) :
    parseAmount "" = some 0
    ∧ parseAmount "abc" = some 0
    ∧ ((∀ c ∈ s.toList, amountChar c = false) → parseAmount s = some 0)
    ∧ (∀ v : ℚ, '-' ∉ s.toList → parseAmount s = some v → 0 ≤ v) := by
  refine ⟨by decide, by decide, ?_, ?_⟩
  · intro hall
    have hnone : s.toList.filter amountChar = [] := by
      rw [List.filter_eq_nil_iff]
      intro c hc
      simp [hall c hc]
    have hstrip : stripAmount s = "" := by
      rw [stripAmount, hnone]
    rw [parseAmount]
    simp only [hstrip, if_pos rfl]
    decide
  · intro v hm h
    rw [parseAmount] at h
    by_cases he : stripAmount s = ""
    · rw [if_pos he] at h
      have h0 : jsParseFloat "0" = some 0 := by decide
      rw [h0, Option.some.injEq] at h
      exact h ▸ le_refl 0
    · rw [if_neg he] at h
      refine jsParseFloat_nonneg _ ?_ v h
      intro hmem
      exact hm (mem_stripAmount_toList s '-' hmem)

/-- C1, witness for the amended theorem at concrete inputs. -/
theorem parse_amount_amended_witness :
    parseAmount "xy" = some 0 ∧ (0 : ℚ) ≤ 7 := by
  constructor
  · exact (parse_amount_amended "xy").2.2.1 (by decide)
  · exact (parse_amount_amended "7").2.2.2 7 (by decide) (by decide)

/-! ## Claim C7: `filteredExtractedData` -/

theorem optFieldMatches_eq_true (f : Option String) (q : String) :
    optFieldMatches f q = true ↔ ∃ s, f = some s ∧ strIncludes (lowerStr s) q = true := by
  cases f <;> simp [optFieldMatches]

/-- C7: the search filter returns the input unchanged on the empty
query; otherwise it keeps, in input order (a sublist of the input),
exactly the results in which some string-valued field — the image id or
a present extraction field — contains the lowercased query. -/
theorem filter_by_search_ok (results : List Slip) (q : String) :
    filteredExtractedData results "" = results
    ∧ (filteredExtractedData results q).Sublist results
    ∧ (∀ it : Slip, it ∈ filteredExtractedData results q ↔
        it ∈ results ∧ (q = "" ∨
          ∃ s ∈ stringFieldValues it, strIncludes (lowerStr s) (lowerStr q) = true)) := by
  refine ⟨by simp [filteredExtractedData], ?_, ?_⟩
  · rw [filteredExtractedData]
    by_cases hq : q = ""
    · rw [if_pos hq]
    · rw [if_neg hq]
      exact List.filter_sublist results
  · intro it
    rw [filteredExtractedData]
    by_cases hq : q = ""
    · rw [if_pos hq]
      simp [hq]
    · rw [if_neg hq]
      rw [List.mem_filter]
      simp only [hq, false_or]
      constructor
      · rintro ⟨hmem, hmatch⟩
        refine ⟨hmem, ?_⟩
        simp only [Bool.or_eq_true, optFieldMatches_eq_true] at hmatch
        rcases hmatch with ((((((((((h | h) | h) | h) | h) | h) | h) | h) | h) | h) | h) |
            h
        · exact ⟨it.imageId, by simp [stringFieldValues], h⟩
        all_goals
          rcases h with ⟨s, hs, h⟩
          exact ⟨s, by simp [stringFieldValues, hs], h⟩
      · rintro ⟨hmem, s, hs, h⟩
        refine ⟨hmem, ?_⟩
        simp only [Bool.or_eq_true, optFieldMatches_eq_true]
        simp only [stringFieldValues, List.mem_cons, List.mem_filterMap, List.mem_cons,
          List.not_mem_nil, or_false, id] at hs
        rcases hs with rfl | ⟨o, ho, hos⟩
        · exact Or.inl (Or.inl (Or.inl (Or.inl (Or.inl (Or.inl (Or.inl (Or.inl (Or.inl
            (Or.inl (Or.inl h))))))))))
        · rcases ho with rfl | rfl | rfl | rfl | rfl | rfl | rfl | rfl | rfl | rfl | rfl <;>
            [skip; skip; skip; skip; skip; skip; skip; skip; skip; skip; skip] <;>
            first
            | exact Or.inl (Or.inl (Or.inl (Or.inl (Or.inl (Or.inl (Or.inl (Or.inl (Or.inl
                (Or.inl (Or.inr ⟨s, hos, h⟩))))))))))
            | exact Or.inl (Or.inl (Or.inl (Or.inl (Or.inl (Or.inl (Or.inl (Or.inl (Or.inl
                (Or.inr ⟨s, hos, h⟩)))))))))
            | exact Or.inl (Or.inl (Or.inl (Or.inl (Or.inl (Or.inl (Or.inl (Or.inl
                (Or.inr ⟨s, hos, h⟩))))))))
            | exact Or.inl (Or.inl (Or.inl (Or.inl (Or.inl (Or.inl (Or.inl
                (Or.inr ⟨s, hos, h⟩)))))))
            | exact Or.inl (Or.inl (Or.inl (Or.inl (Or.inl (Or.inl (Or.inr ⟨s, hos, h⟩))))))
            | exact Or.inl (Or.inl (Or.inl (Or.inl (Or.inl (Or.inr ⟨s, hos, h⟩)))))
            | exact Or.inl (Or.inl (Or.inl (Or.inl (Or.inr ⟨s, hos, h⟩))))
            | exact Or.inl (Or.inl (Or.inl (Or.inr ⟨s, hos, h⟩)))
            | exact Or.inl (Or.inl (Or.inr ⟨s, hos, h⟩))
            | exact Or.inl (Or.inr ⟨s, hos, h⟩)
            | exact Or.inr ⟨s, hos, h⟩

/-! ## Claim C5: `dailyFrequencyData` -/

theorem keyCount_pos_of_mem (keyF : Slip → Option String) (results : List Slip)
    (d : String) (h : ∃ it ∈ results, keyF it = some d) :
    1 ≤ keyCount keyF results d := by
  rcases h with ⟨it, hmem, hkey⟩
  have : it ∈ results.filter (fun it => keyF it == some d) :=
    List.mem_filter.mpr ⟨hmem, by simp [hkey]⟩
  have hpos : 0 < (results.filter (fun it => keyF it == some d)).length :=
    List.length_pos.mpr (List.ne_nil_of_mem this)
  exact hpos

theorem getD_lookup_countMap (keyF : Slip → Option String) (results : List Slip)
    (d : String) (h : ∃ it ∈ results, keyF it = some d) :
    ((countMap keyF results).lookup d).getD 0 = keyCount keyF results d := by
  rw [lookup_countMap]
  have := keyCount_pos_of_mem keyF results d h
  rw [if_neg (by omega)]
  rfl

theorem mem_keys_countMap (keyF : Slip → Option String) (results : List Slip) (d : String) :
    d ∈ (countMap keyF results).map Prod.fst ↔ ∃ it ∈ results, keyF it = some d :=
  mem_keys_buildMap keyF _ _ results d

theorem mem_dailyFrequencyArr (results : List Slip) (e : DateCount) :
    e ∈ dailyFrequencyArr results ↔
      ∃ d, (∃ it ∈ results, dateKey it = some d) ∧
        e = ⟨d, keyCount dateKey results d⟩ := by
  simp only [dailyFrequencyArr]
  rw [List.mem_map]
  constructor
  · rintro ⟨d, hd, rfl⟩
    rw [mem_objectKeysOrder, mem_keys_countMap] at hd
    exact ⟨d, hd, by rw [getD_lookup_countMap dateKey results d hd]⟩
  · rintro ⟨d, hd, rfl⟩
    refine ⟨d, ?_, by rw [getD_lookup_countMap dateKey results d hd]⟩
    rw [mem_objectKeysOrder, mem_keys_countMap]
    exact hd

theorem mem_dailyFrequencyData (results : List Slip) (e : DateCount) :
    e ∈ dailyFrequencyData results ↔ e ∈ dailyFrequencyArr results :=
  mem_sortWith _ _ e

/-- Slip with a given image id and transaction date and no other
fields, used to evaluate the daily-frequency examples. -/
def dateSlip (id date : String) : Slip :=
  ⟨id, ⟨⟨none, none, none, some date, none, none, none, none, none, none, none⟩, none⟩⟩

/-- C5, counterexample: ties do NOT always retain first-encountered
date order. With dates `"5"` then `"3"` (both of count 1), `Object.keys`
enumerates the canonical-integer keys in ascending numeric order, so the
output is `[{3,1},{5,1}]`, not the first-encountered `[{5,1},{3,1}]`
the claim demands. -/
theorem daily_frequency_counterexample :
    dailyFrequencyData [dateSlip "a" "5", dateSlip "b" "3"] =
      [⟨"3", 1⟩, ⟨"5", 1⟩]
    ∧ dailyFrequencyData [dateSlip "a" "5", dateSlip "b" "3"] ≠
      [⟨"5", 1⟩, ⟨"3", 1⟩] := by
  constructor
  · decide
  · decide

/-- C5, amended: `dailyFrequencyData` excludes records with no
`transactionDate`, counts occurrences per distinct date value, and
returns the groups sorted by count descending; ties retain the
`Object.keys` enumeration order of the dates (canonical-integer date
strings first in ascending numeric order, then the others in
first-encountered order) — the stated stable-sort property relative to
that enumeration order, which coincides with first-encountered order for
non-numeric dates; the claim's concrete example holds. -/
theorem daily_frequency_amended (results : List Slip) :
    List.Pairwise (fun a b : DateCount => b.count ≤ a.count) (dailyFrequencyData results)
    ∧ (∀ e ∈ dailyFrequencyData results,
        e.count = keyCount dateKey results e.date ∧ 1 ≤ e.count)
    ∧ (∀ d : String, (∃ e ∈ dailyFrequencyData results, e.date = d) ↔
        ∃ it ∈ results, dateKey it = some d)
    ∧ (∀ c : Nat, (dailyFrequencyData results).filter (fun e => e.count == c) =
        (dailyFrequencyArr results).filter (fun e => e.count == c))
    ∧ dailyFrequencyData
        [dateSlip "a" "2024-01-01", dateSlip "b" "2024-01-01", dateSlip "c" "2024-01-02"] =
        [⟨"2024-01-01", 2⟩, ⟨"2024-01-02", 1⟩] := by
  refine ⟨?_, ?_, ?_, ?_, by decide⟩
  · refine pairwise_sortWith ?_ ?_ ?_ _
    · intro x y h
      exact of_decide_eq_true h
    · intro x y h
      have := of_decide_eq_false h
      omega
    · intro x y z hxy hyz
      omega
  · intro e he
    rw [mem_dailyFrequencyData, mem_dailyFrequencyArr] at he
    rcases he with ⟨d, hd, rfl⟩
    exact ⟨rfl, keyCount_pos_of_mem dateKey results d hd⟩
  · intro d
    constructor
    · rintro ⟨e, he, rfl⟩
      rw [mem_dailyFrequencyData, mem_dailyFrequencyArr] at he
      rcases he with ⟨d2, hd2, rfl⟩
      exact hd2
    · intro hd
      refine ⟨⟨d, keyCount dateKey results d⟩, ?_, rfl⟩
      rw [mem_dailyFrequencyData, mem_dailyFrequencyArr]
      exact ⟨d, hd, rfl⟩
  · intro c
    exact filter_sortWith_rank DateCount.count c (dailyFrequencyArr results)

/-- C5, witness for the amended theorem at a concrete input. -/
theorem daily_frequency_amended_witness :
    (⟨"2024-01-01", 2⟩ : DateCount).count =
      keyCount dateKey
        [dateSlip "a" "2024-01-01", dateSlip "b" "2024-01-01", dateSlip "c" "2024-01-02"]
        "2024-01-01" := by
  exact ((daily_frequency_amended
    [dateSlip "a" "2024-01-01", dateSlip "b" "2024-01-01", dateSlip "c" "2024-01-02"]).2.1
    ⟨"2024-01-01", 2⟩ (by decide)).1

/-! ## Claim C9: `bankUsageData` -/

theorem mem_bankUsageData (results : List Slip) (e : BankCount) :
    e ∈ bankUsageData results ↔
      ∃ b, (∃ it ∈ results, bankKey it = some b) ∧
        e = ⟨b, keyCount bankKey results b⟩ := by
  simp only [bankUsageData]
  rw [mem_sortWith, List.mem_map]
  constructor
  · rintro ⟨b, hb, rfl⟩
    rw [mem_objectKeysOrder, mem_keys_countMap] at hb
    exact ⟨b, hb, by rw [getD_lookup_countMap bankKey results b hb]⟩
  · rintro ⟨b, hb, rfl⟩
    refine ⟨b, ?_, by rw [getD_lookup_countMap bankKey results b hb]⟩
    rw [mem_objectKeysOrder, mem_keys_countMap]
    exact hb

/-- Slip with a given image id and recipient bank name and no other
fields, used to evaluate the canonicalization example. -/
def bankSlip (id bank : String) : Slip :=
  ⟨id, ⟨⟨none, none, none, none, none, none, none, none, some bank, none, none⟩, none⟩⟩

/-- C9: `bankUsageData` groups results by canonicalized recipient bank
name (records with no bank name excluded), counts occurrences per
canonical name, returns the groups sorted descending by count, and in
particular `"KRUNGSRI BANK"` and `"Krungsri"` land in one and the same
canonical entry. -/
theorem bank_usage_ok (results : List Slip) :
    List.Pairwise (fun a b : BankCount => b.value ≤ a.value) (bankUsageData results)
    ∧ (∀ e ∈ bankUsageData results,
        e.value = keyCount bankKey results e.name ∧ 1 ≤ e.value)
    ∧ (∀ b : String, (∃ e ∈ bankUsageData results, e.name = b) ↔
        ∃ it ∈ results, bankKey it = some b)
    ∧ canonicalizeBankName "KRUNGSRI BANK" = canonicalizeBankName "Krungsri"
    ∧ bankUsageData [bankSlip "a" "KRUNGSRI BANK", bankSlip "b" "Krungsri"] =
        [⟨"กรุงศรี", 2⟩] := by
  refine ⟨?_, ?_, ?_, by decide, by decide⟩
  · refine pairwise_sortWith ?_ ?_ ?_ _
    · intro x y h
      exact of_decide_eq_true h
    · intro x y h
      have := of_decide_eq_false h
      omega
    · intro x y z hxy hyz
      omega
  · intro e he
    rw [mem_bankUsageData] at he
    rcases he with ⟨b, hb, rfl⟩
    exact ⟨rfl, keyCount_pos_of_mem bankKey results b hb⟩
  · intro b
    constructor
    · rintro ⟨e, he, rfl⟩
      rw [mem_bankUsageData] at he
      rcases he with ⟨b2, hb2, rfl⟩
      exact hb2
    · intro hb
      refine ⟨⟨b, keyCount bankKey results b⟩, ?_, rfl⟩
      rw [mem_bankUsageData]
      exact ⟨b, hb, rfl⟩

/-- C9, witness for the grouping part at a concrete input. -/
theorem bank_usage_ok_witness :
    (⟨"กรุงศรี", 2⟩ : BankCount).value =
      keyCount bankKey [bankSlip "a" "KRUNGSRI BANK", bankSlip "b" "Krungsri"] "กรุงศรี" := by
  exact ((bank_usage_ok [bankSlip "a" "KRUNGSRI BANK", bankSlip "b" "Krungsri"]).2.1
    ⟨"กรุงศรี", 2⟩ (by decide)).1

/-! ## Claim C6: `topRecipientAccountsData` -/

theorem lookup_statsMap (results : List Slip) (a : String)
    (h : ∃ it ∈ results, accKey it = some a) :
    (statsMap results).lookup a =
      some ⟨keyCount accKey results a, accountTotal results a,
        (((results.filter (fun it => accKey it == some a)).map bankOf).find?
          (fun b => !(b == ""))).getD ""⟩ := by
  rw [statsMap, lookup_buildMap]
  rcases hf : results.filter (fun it => accKey it == some a) with _ | ⟨it0, rest⟩
  · rcases h with ⟨it, hmem, hkey⟩
    have hin : it ∈ results.filter (fun it => accKey it == some a) :=
      List.mem_filter.mpr ⟨hmem, by simp [hkey]⟩
    rw [hf] at hin
    exact absurd hin (List.not_mem_nil it)
  · simp only [applyItems, Option.getD_none]
    rw [applyItems_stats]
    have hupd : statsUpd it0 (statsInit it0) = ⟨1, 0 + amountOf it0, bankOf it0⟩ := by
      simp only [statsUpd, statsInit]
      by_cases hb : bankOf it0 = "" <;> simp [hb]
    rw [hupd]
    have hkc : keyCount accKey results a = rest.length + 1 := by
      rw [keyCount, hf, List.length_cons]
    have hat : accountTotal results a =
        amountOf it0 + (rest.map amountOf).sum := by
      rw [accountTotal, hf, List.map_cons, List.sum_cons]
    rw [hkc, hat]
    simp only [Option.some.injEq, AccountStats.mk.injEq, List.map_cons]
    refine ⟨by omega, by ring, ?_⟩
    by_cases hb : bankOf it0 = ""
    · rw [if_pos hb, List.find?_cons_of_neg _ (by simp [hb])]
    · rw [if_neg hb, List.find?_cons_of_pos _ (by simp [hb]), Option.getD_some]

theorem accountEntryOf_statsMap (results : List Slip) (a : String)
    (h : ∃ it ∈ results, accKey it = some a) :
    accountEntryOf (statsMap results) a =
      ⟨a, keyCount accKey results a, accountTotal results a,
        accountBankDisplay results a⟩ := by
  rw [accountEntryOf, lookup_statsMap results a h]
  simp only [Option.getD_some, accountBankDisplay]
  rcases hfind : ((results.filter (fun it => accKey it == some a)).map bankOf).find?
      (fun b => !(b == "")) with _ | b
  · simp
  · have hb : ¬ b = "" := by
      have := List.find?_some hfind
      simpa using this
    simp [hb]

theorem mem_sortedAccountsData (results : List Slip) (e : AccountEntry) :
    e ∈ sortedAccountsData results ↔
      ∃ a, (∃ it ∈ results, accKey it = some a) ∧
        e = ⟨a, keyCount accKey results a, accountTotal results a,
          accountBankDisplay results a⟩ := by
  rw [sortedAccountsData, mem_sortWith, List.mem_map]
  constructor
  · rintro ⟨a, ha, rfl⟩
    rw [mem_objectKeysOrder, statsMap, mem_keys_buildMap] at ha
    exact ⟨a, ha, (accountEntryOf_statsMap results a ha).symm ▸ rfl⟩
  · rintro ⟨a, ha, rfl⟩
    refine ⟨a, ?_, accountEntryOf_statsMap results a ha⟩
    rw [mem_objectKeysOrder, statsMap, mem_keys_buildMap]
    exact ha

theorem map_accountNumber_sortedAccountsData_nodup (results : List Slip) :
    ((sortedAccountsData results).map AccountEntry.accountNumber).Nodup := by
  have hperm : List.Perm
      ((sortedAccountsData results).map AccountEntry.accountNumber)
      (((objectKeysOrder ((statsMap results).map Prod.fst)).map
        (accountEntryOf (statsMap results))).map AccountEntry.accountNumber) :=
    (sortWith_perm _ _).map AccountEntry.accountNumber
  rw [hperm.nodup_iff, List.map_map]
  have : ((objectKeysOrder ((statsMap results).map Prod.fst)).map
      (AccountEntry.accountNumber ∘ accountEntryOf (statsMap results))) =
      (objectKeysOrder ((statsMap results).map Prod.fst)).map (fun a => a) := by
    refine List.map_congr_left ?_
    intro a _
    rfl
  rw [this, List.map_id']
  exact nodup_objectKeysOrder _ (nodup_keys_buildMap _ _ _ _)

/-- C6: `topRecipientAccountsData` returns at most five rows, sorted by
transaction count descending, with pairwise distinct account numbers;
every row's transaction count is the number of results carrying that
(truthy) recipient account number, its total is their summed
`parsedAmount || 0`, and its bank name is the first non-empty recipient
bank name seen for that account (placeholder `"-"` if never populated);
and every account number occurring in the results appears as a row
unless the five-row truncation is full. -/
theorem top_recipient_accounts_ok (results : List Slip) :
    (topRecipientAccountsData results).length ≤ 5
    ∧ List.Pairwise (fun a b : AccountEntry => b.transactionCount ≤ a.transactionCount)
        (topRecipientAccountsData results)
    ∧ (∀ e ∈ topRecipientAccountsData results,
        e.transactionCount = keyCount accKey results e.accountNumber
        ∧ e.totalAmountTransferred = accountTotal results e.accountNumber
        ∧ e.bankName = accountBankDisplay results e.accountNumber)
    ∧ (∀ a : String, (∃ it ∈ results, accKey it = some a) →
        (∃ e ∈ topRecipientAccountsData results, e.accountNumber = a)
        ∨ (topRecipientAccountsData results).length = 5)
    ∧ ((topRecipientAccountsData results).map AccountEntry.accountNumber).Nodup := by
  refine ⟨?_, ?_, ?_, ?_, ?_⟩
  · rw [topRecipientAccountsData, List.length_take]
    exact min_le_left 5 _
  · refine List.Pairwise.sublist (List.take_sublist 5 _) ?_
    refine pairwise_sortWith ?_ ?_ ?_ _
    · intro x y h
      exact of_decide_eq_true h
    · intro x y h
      have := of_decide_eq_false h
      omega
    · intro x y z hxy hyz
      omega
  · intro e he
    have he2 : e ∈ sortedAccountsData results :=
      (List.take_sublist 5 _).subset he
    rw [mem_sortedAccountsData] at he2
    rcases he2 with ⟨a, _, rfl⟩
    exact ⟨rfl, rfl, rfl⟩
  · intro a ha
    by_cases h5 : (sortedAccountsData results).length ≤ 5
    · refine Or.inl ?_
      refine ⟨⟨a, keyCount accKey results a, accountTotal results a,
        accountBankDisplay results a⟩, ?_, rfl⟩
      rw [topRecipientAccountsData, List.take_of_length_le h5, mem_sortedAccountsData]
      exact ⟨a, ha, rfl⟩
    · refine Or.inr ?_
      rw [topRecipientAccountsData, List.length_take]
      omega
  · refine List.Nodup.sublist ?_ (map_accountNumber_sortedAccountsData_nodup results)
    rw [topRecipientAccountsData, List.map_take]
    exact List.take_sublist 5 _

/-- Slip with a given image id, recipient account number, recipient
bank name (possibly absent) and no other fields. -/
def accountSlip (id acc : String) (bank : Option String) : Slip :=
  ⟨id, ⟨⟨none, none, none, none, none, none, none, none, bank, some acc, none⟩, none⟩⟩

/-- C6, witness for the coverage part at a concrete input. -/
theorem top_recipient_accounts_ok_witness :
    (∃ e ∈ topRecipientAccountsData
        [accountSlip "a" "123" none, accountSlip "b" "123" (some "KBank")],
      e.accountNumber = "123")
    ∨ (topRecipientAccountsData
        [accountSlip "a" "123" none, accountSlip "b" "123" (some "KBank")]).length = 5 := by
  exact (top_recipient_accounts_ok
      [accountSlip "a" "123" none, accountSlip "b" "123" (some "KBank")]).2.2.2.1
    "123" (by decide)

/-! ## Batch-loop facts shared by the orchestrator claims -/

theorem dedupHit_mem (existing : List ExtractionItem) (id : String) (e : ExtractionItem)
    (h : dedupHit existing id = some e) :
    e ∈ existing ∧ e.imageId = id ∧ e.data.isSome = true := by
  rw [dedupHit] at h
  rcases hfind : existing.find? (fun x => x.imageId == id) with _ | e2
  · rw [hfind, Option.none_bind] at h
    exact absurd h (by simp)
  · rw [hfind, Option.some_bind] at h
    by_cases hs : e2.data.isSome = true
    · rw [if_pos hs, Option.some.injEq] at h
      subst h
      refine ⟨List.mem_of_find?_eq_some hfind, ?_, hs⟩
      have := List.find?_some hfind
      simpa using this
    · rw [if_neg hs] at h
      exact absurd h (by simp)

theorem dedupHit_none_of_not_mem (existing : List ExtractionItem) (id : String)
    (h : ∀ x ∈ existing, x.imageId ≠ id) :
    dedupHit existing id = none := by
  rw [dedupHit]
  have hfind : existing.find? (fun x => x.imageId == id) = none := by
    rw [List.find?_eq_none]
    intro x hx
    simpa using h x hx
  rw [hfind, Option.none_bind]

theorem stepImage_of_dedup (env : Env) (existing : List ExtractionItem) (img : ImageAsset)
    (e : ExtractionItem) (h : dedupHit existing img.id = some e) :
    stepImage env existing img = ⟨some e, none, none, none⟩ := by
  rw [stepImage, h, Option.elim_some]

theorem stepImage_of_no_dedup (env : Env) (existing : List ExtractionItem)
    (img : ImageAsset) (h : dedupHit existing img.id = none) :
    stepImage env existing img =
      stepOutcome img (env.persistOk img.id) (env.extract img.id) := by
  rw [stepImage, h, Option.elim_none]

theorem stepOutcome_call (img : ImageAsset) (persist : Bool) (x : ExtractOutcome) :
    (stepOutcome img persist x).call = some img.id := by
  rcases x with _ | _ | _ | f
  · rfl
  · rfl
  · rfl
  · by_cases hp : persist = true
    · simp [stepOutcome, hp]
    · simp [stepOutcome, hp]

theorem stepImage_call_of_no_dedup (env : Env) (existing : List ExtractionItem)
    (img : ImageAsset) (h : dedupHit existing img.id = none) :
    (stepImage env existing img).call = some img.id := by
  rw [stepImage_of_no_dedup env existing img h, stepOutcome_call]

theorem stepImage_call_some (env : Env) (existing : List ExtractionItem)
    (img : ImageAsset) (c : String) (h : (stepImage env existing img).call = some c) :
    c = img.id ∧ dedupHit existing img.id = none := by
  rcases hd : dedupHit existing img.id with _ | e
  · refine ⟨?_, rfl⟩
    rw [stepImage_call_of_no_dedup env existing img hd, Option.some.injEq] at h
    exact h.symm
  · rw [stepImage_of_dedup env existing img e hd] at h
    exact absurd h (by simp)

theorem stepImage_write_some (env : Env) (existing : List ExtractionItem)
    (img : ImageAsset) (w : String) (h : (stepImage env existing img).write = some w) :
    w = img.id ∧ dedupHit existing img.id = none := by
  rcases hd : dedupHit existing img.id with _ | e
  · refine ⟨?_, rfl⟩
    rw [stepImage_of_no_dedup env existing img hd] at h
    rcases hx : env.extract img.id with _ | _ | _ | f <;> rw [hx] at h
    · exact absurd h (by simp [stepOutcome])
    · exact absurd h (by simp [stepOutcome])
    · exact absurd h (by simp [stepOutcome])
    · by_cases hp : env.persistOk img.id = true
      · rw [show stepOutcome img (env.persistOk img.id) (ExtractOutcome.ok f) =
            stepOutcome img true (ExtractOutcome.ok f) by rw [hp]] at h
        simp only [stepOutcome, if_true, Option.some.injEq] at h
        exact h.symm
      · rw [show stepOutcome img (env.persistOk img.id) (ExtractOutcome.ok f) =
            stepOutcome img false (ExtractOutcome.ok f) by
          rw [Bool.eq_false_iff.mpr hp]] at h
        simp only [stepOutcome, if_false, Bool.false_eq_true, Option.some.injEq] at h
        exact h.symm
  · rw [stepImage_of_dedup env existing img e hd] at h
    exact absurd h (by simp)

theorem stepImage_res_some (env : Env) (existing : List ExtractionItem)
    (img : ImageAsset) (it : ExtractionItem)
    (h : (stepImage env existing img).res = some it) :
    it.imageId = img.id ∧ it.data.isSome = true := by
  rcases hd : dedupHit existing img.id with _ | e
  · rw [stepImage_of_no_dedup env existing img hd] at h
    rcases hx : env.extract img.id with _ | _ | _ | f <;> rw [hx] at h
    · exact absurd h (by simp [stepOutcome])
    · exact absurd h (by simp [stepOutcome])
    · exact absurd h (by simp [stepOutcome])
    · by_cases hp : env.persistOk img.id = true
      · rw [show stepOutcome img (env.persistOk img.id) (ExtractOutcome.ok f) =
            stepOutcome img true (ExtractOutcome.ok f) by rw [hp]] at h
        simp only [stepOutcome, if_true, Option.some.injEq] at h
        rw [← h]
        exact ⟨rfl, rfl⟩
      · rw [show stepOutcome img (env.persistOk img.id) (ExtractOutcome.ok f) =
            stepOutcome img false (ExtractOutcome.ok f) by
          rw [Bool.eq_false_iff.mpr hp]] at h
        exact absurd h (by simp [stepOutcome])
  · rw [stepImage_of_dedup env existing img e hd] at h
    simp only [Option.some.injEq] at h
    subst h
    rcases dedupHit_mem existing img.id _ hd with ⟨_, hid, hs⟩
    exact ⟨hid, hs⟩

theorem batch_results_isSome (env : Env) (images : List ImageAsset)
    (existing : List ExtractionItem) :
    ∀ it ∈ (processBatch env images existing).results, it.data.isSome = true := by
  intro it hit
  rw [processBatch_results] at hit
  rcases List.mem_filterMap.mp hit with ⟨img, _, hres⟩
  exact (stepImage_res_some env existing img it hres).2

theorem batch_covers (env : Env) (images : List ImageAsset)
    (existing : List ExtractionItem) (img : ImageAsset) (h : img ∈ images) :
    dedupHit existing img.id ≠ none ∨
      img.id ∈ (processBatch env images existing).calls := by
  rcases hd : dedupHit existing img.id with _ | e
  · refine Or.inr ?_
    rw [processBatch_calls]
    exact List.mem_filterMap.mpr
      ⟨img, h, stepImage_call_of_no_dedup env existing img hd⟩
  · exact Or.inl (by simp [hd])

/-! ## Claim C4: per-image failures never abort the batch -/

/-- C4: every image of the batch is processed — it is either served from
the dedup cache or the Extraction Client is invoked for it, regardless
of any other image's failure — and each failing image gets an error of
the appropriate kind recorded: `TransportFailure` for a failed call,
`MalformedResponse` for a missing or unparsable payload, and
`PersistenceFailure` for a failed write-back. -/
theorem batch_never_aborts (env : Env) (images : List ImageAsset)
    (existing : List ExtractionItem) :
    (∀ img ∈ images,
      dedupHit existing img.id ≠ none ∨ img.id ∈ (processBatch env images existing).calls)
    ∧ (∀ img ∈ images, dedupHit existing img.id = none →
        (env.extract img.id = ExtractOutcome.transportFailure →
          (img.id, ErrorKind.transportFailure) ∈ (processBatch env images existing).errors)
        ∧ (env.extract img.id = ExtractOutcome.noPayload →
          (img.id, ErrorKind.malformedResponse) ∈ (processBatch env images existing).errors)
        ∧ (env.extract img.id = ExtractOutcome.malformedJson →
          (img.id, ErrorKind.malformedResponse) ∈ (processBatch env images existing).errors)
        ∧ (∀ f : Fields, env.extract img.id = ExtractOutcome.ok f →
            env.persistOk img.id = false →
          (img.id, ErrorKind.persistenceFailure) ∈
            (processBatch env images existing).errors)) := by
  refine ⟨fun img h => batch_covers env images existing img h, ?_⟩
  intro img hmem hd
  refine ⟨?_, ?_, ?_, ?_⟩
  · intro hx
    rw [processBatch_errors]
    exact List.mem_filterMap.mpr
      ⟨img, hmem, by rw [stepImage_of_no_dedup env existing img hd, hx]; rfl⟩
  · intro hx
    rw [processBatch_errors]
    exact List.mem_filterMap.mpr
      ⟨img, hmem, by rw [stepImage_of_no_dedup env existing img hd, hx]; rfl⟩
  · intro hx
    rw [processBatch_errors]
    exact List.mem_filterMap.mpr
      ⟨img, hmem, by rw [stepImage_of_no_dedup env existing img hd, hx]; rfl⟩
  · intro f hx hp
    rw [processBatch_errors]
    refine List.mem_filterMap.mpr ⟨img, hmem, ?_⟩
    rw [stepImage_of_no_dedup env existing img hd, hx, hp]
    simp [stepOutcome]

/-- Field object with every schema field absent. -/
def fieldsNone : Fields :=
  ⟨none, none, none, none, none, none, none, none, none, none, none⟩

/-- Environment whose extraction fails in transport for image `"a"` and
succeeds for every other image, with all writes succeeding. -/
def envC4 : Env :=
  ⟨fun id => if id == "a" then ExtractOutcome.transportFailure
    else ExtractOutcome.ok fieldsNone, fun _ => true⟩

/-- C4, witness: with the first image failing in transport, its error is
recorded and the second image is still processed. -/
theorem batch_never_aborts_witness :
    (("a", ErrorKind.transportFailure) ∈
      (processBatch envC4 [⟨"a", "u"⟩, ⟨"b", "v"⟩] []).errors)
    ∧ (dedupHit [] (ImageAsset.mk "b" "v").id ≠ none ∨
        (ImageAsset.mk "b" "v").id ∈ (processBatch envC4 [⟨"a", "u"⟩, ⟨"b", "v"⟩] []).calls) := by
  constructor
  · exact ((batch_never_aborts envC4 [⟨"a", "u"⟩, ⟨"b", "v"⟩] []).2
      ⟨"a", "u"⟩ (by decide) (by decide)).1 (by decide)
  · exact (batch_never_aborts envC4 [⟨"a", "u"⟩, ⟨"b", "v"⟩] []).1 ⟨"b", "v"⟩ (by decide)

/-! ## Claim C2: persistence failure -/

/-- Environment whose extraction always succeeds (with an empty field
object) and whose store rejects every write. -/
def envPersistFail : Env := ⟨fun _ => ExtractOutcome.ok fieldsNone, fun _ => false⟩

/-- C2, counterexample: when the write-back fails, the in-memory result
is NOT included in the returned sequence — the `setDoc` rejection is
caught by the surrounding catch before `updatedExtractedData.push`, so
the batch over one image yields no results, only the recorded
`PersistenceFailure`. -/
theorem persistence_failure_counterexample :
    (processBatch envPersistFail [⟨"a", "u"⟩] []).results = []
    ∧ (processBatch envPersistFail [⟨"a", "u"⟩] []).errors =
        [("a", ErrorKind.persistenceFailure)] := by
  constructor
  · decide
  · decide

/-- C2, amended: when the write-back of a normalized result fails, the
batch continues to the next image (every image is still served from the
cache or called) and a `PersistenceFailure` error is recorded for the
failed image, but the in-memory result for that image is NOT included in
the result sequence returned to the caller — the failed write raises
before the push. -/
theorem persistence_failure_amended (env : Env) (images : List ImageAsset)
    (existing : List ExtractionItem) (img : ImageAsset) (f : Fields)
    (hmem : img ∈ images) (hex : ∀ x ∈ existing, x.imageId ≠ img.id)
    (hok : env.extract img.id = ExtractOutcome.ok f)
    (hpf : env.persistOk img.id = false) :
    (img.id, ErrorKind.persistenceFailure) ∈ (processBatch env images existing).errors
    ∧ (∀ it ∈ (processBatch env images existing).results, it.imageId ≠ img.id)
    ∧ (∀ img2 ∈ images, dedupHit existing img2.id ≠ none ∨
        img2.id ∈ (processBatch env images existing).calls) := by
  have hd : dedupHit existing img.id = none := dedupHit_none_of_not_mem existing img.id hex
  refine ⟨?_, ?_, fun img2 h2 => batch_covers env images existing img2 h2⟩
  · rw [processBatch_errors]
    refine List.mem_filterMap.mpr ⟨img, hmem, ?_⟩
    rw [stepImage_of_no_dedup env existing img hd, hok, hpf]
    simp [stepOutcome]
  · intro it hit hid
    rw [processBatch_results] at hit
    rcases List.mem_filterMap.mp hit with ⟨img2, hmem2, hres⟩
    have hid2 : it.imageId = img2.id := (stepImage_res_some env existing img2 it hres).1
    have heq : img2.id = img.id := by rw [← hid2, hid]
    rcases hd2 : dedupHit existing img2.id with _ | e
    · rw [stepImage_of_no_dedup env existing img2 hd2, heq, hok] at hres
      by_cases hp : env.persistOk img.id = true
      · rw [hp] at hpf
        exact absurd hpf (by simp)
      · rw [Bool.eq_false_iff.mpr hp] at hres
        exact absurd hres (by simp [stepOutcome])
    · rcases dedupHit_mem existing img2.id e hd2 with ⟨hemem, heid, _⟩
      exact hex e hemem (by rw [heid, heq])

/-- Environment whose extraction always succeeds and whose store
accepts the write for image `"b"` but rejects the write for `"a"`. -/
def envC2 : Env := ⟨fun _ => ExtractOutcome.ok fieldsNone, fun id => id == "b"⟩

/-- C2, witness for the amended theorem at a concrete two-image batch. -/
theorem persistence_failure_amended_witness :
    ("a", ErrorKind.persistenceFailure) ∈
      (processBatch envC2 [⟨"a", "u"⟩, ⟨"b", "v"⟩] []).errors
    ∧ (∀ it ∈ (processBatch envC2 [⟨"a", "u"⟩, ⟨"b", "v"⟩] []).results,
        it.imageId ≠ (ImageAsset.mk "a" "u").id)
    ∧ (∀ img2 ∈ [ImageAsset.mk "a" "u", ImageAsset.mk "b" "v"],
        dedupHit [] img2.id ≠ none ∨
          img2.id ∈ (processBatch envC2 [⟨"a", "u"⟩, ⟨"b", "v"⟩] []).calls) :=
  persistence_failure_amended envC2 [⟨"a", "u"⟩, ⟨"b", "v"⟩] [] ⟨"a", "u"⟩ fieldsNone
    (by decide) (by decide) rfl rfl

/-! ## Claim C3: dedup and idempotence -/

/-- C3, amended, in three parts. (1) Dedup: an image whose id has a
prior result with a payload is carried forward unchanged — that very
entry appears in the output — with no Extraction Client call and no
store write for its id. (2) Conditional idempotence: if the first run
produced a result for every image of the batch, a second run seeded with
the first run's output issues zero Extraction Client invocations (images
that failed in the first run have no result and ARE retried — see the
counterexample). (3) For two images where the first has a prior result
and the second's id has none, exactly one invocation is issued, for the
second image. -/
theorem dedup_idempotence_amended (env env2 : Env) (images : List ImageAsset)
    (existing : List ExtractionItem) :
    (∀ img ∈ images, ∀ e, dedupHit existing img.id = some e →
      e ∈ (processBatch env images existing).results
      ∧ img.id ∉ (processBatch env images existing).calls
      ∧ img.id ∉ (processBatch env images existing).writes)
    ∧ ((∀ img ∈ images, ∃ e ∈ (processBatch env images existing).results,
          e.imageId = img.id) →
        (processBatch env2 images (processBatch env images existing).results).calls = [])
    ∧ (∀ i1 i2 : ImageAsset, ∀ e, dedupHit existing i1.id = some e →
        (∀ x ∈ existing, x.imageId ≠ i2.id) →
        (processBatch env [i1, i2] existing).calls = [i2.id]) := by
  refine ⟨?_, ?_, ?_⟩
  · intro img hmem e hde
    refine ⟨?_, ?_, ?_⟩
    · rw [processBatch_results]
      refine List.mem_filterMap.mpr ⟨img, hmem, ?_⟩
      rw [stepImage_of_dedup env existing img e hde]
    · intro hc
      rw [processBatch_calls] at hc
      rcases List.mem_filterMap.mp hc with ⟨img2, _, hcall⟩
      rcases stepImage_call_some env existing img2 img.id hcall with ⟨heq, hd2⟩
      rw [← heq] at hd2
      rw [hd2] at hde
      exact absurd hde (by simp)
    · intro hw
      rw [processBatch_writes] at hw
      rcases List.mem_filterMap.mp hw with ⟨img2, _, hwrite⟩
      rcases stepImage_write_some env existing img2 img.id hwrite with ⟨heq, hd2⟩
      rw [← heq] at hd2
      rw [hd2] at hde
      exact absurd hde (by simp)
  · intro hall
    rw [processBatch_calls]
    rw [List.filterMap_eq_nil_iff]
    intro img hmem
    rcases hall img hmem with ⟨e, hmem2, hid⟩
    have hsome : e.data.isSome = true :=
      batch_results_isSome env images existing e hmem2
    have hfind : ((processBatch env images existing).results.find?
        (fun x => x.imageId == img.id)).isSome = true := by
      rw [List.find?_isSome]
      exact ⟨e, hmem2, by simp [hid]⟩
    rcases hf : (processBatch env images existing).results.find?
        (fun x => x.imageId == img.id) with _ | e2
    · rw [hf] at hfind
      exact absurd hfind (by simp)
    · have he2 : e2 ∈ (processBatch env images existing).results :=
        List.mem_of_find?_eq_some hf
      have hs2 : e2.data.isSome = true :=
        batch_results_isSome env images existing e2 he2
      have hd : dedupHit (processBatch env images existing).results img.id = some e2 := by
        rw [dedupHit, hf, Option.some_bind, if_pos hs2]
      rw [stepImage_of_dedup env2 _ img e2 hd]
  · intro i1 i2 e hde hex2
    have hd2 : dedupHit existing i2.id = none :=
      dedupHit_none_of_not_mem existing i2.id hex2
    rw [processBatch_calls]
    rw [show ([i1, i2] : List ImageAsset).filterMap
        (fun i => (stepImage env existing i).call) =
      (stepImage env existing i1).call.toList ++
        (stepImage env existing i2).call.toList by
      simp [List.filterMap_cons]
      rcases (stepImage env existing i1).call with _ | c <;>
        rcases (stepImage env existing i2).call with _ | c2 <;> simp]
    rw [stepImage_of_dedup env existing i1 e hde,
      stepImage_call_of_no_dedup env existing i2 hd2]
    rfl

/-- Environment whose extraction always fails in transport. -/
def envTransportFail : Env := ⟨fun _ => ExtractOutcome.transportFailure, fun _ => true⟩

/-- C3, counterexample: re-running `processBatch` with `existingResults`
seeded from the first run's output is NOT always free of Extraction
Client invocations. If the single image failed in transport on the first
run, the first run's output holds no result for it, and the second run
invokes the client for it again (one invocation, not zero). -/
theorem idempotence_counterexample :
    (processBatch envTransportFail [⟨"img1", "u"⟩]
      (processBatch envTransportFail [⟨"img1", "u"⟩] []).results).calls = ["img1"]
    ∧ (["img1"] : List String) ≠ [] := by
  constructor
  · decide
  · decide

/-- Prior extraction payload used by the C3 witness. -/
def extW : Extracted := ⟨fieldsNone, some 0⟩

/-- Environment whose extraction always succeeds and whose store always
accepts writes. -/
def envAllOk : Env := ⟨fun _ => ExtractOutcome.ok fieldsNone, fun _ => true⟩

/-- C3, witness: with a prior result for `"a"` and none for `"b"`, the
prior entry is carried forward, no call or write happens for `"a"`, and
the batch's calls are exactly `["b"]`. -/
theorem dedup_idempotence_amended_witness :
    ((⟨"a", some extW⟩ : ExtractionItem) ∈
        (processBatch envAllOk [⟨"a", "u"⟩, ⟨"b", "v"⟩] [⟨"a", some extW⟩]).results
      ∧ (ImageAsset.mk "a" "u").id ∉
        (processBatch envAllOk [⟨"a", "u"⟩, ⟨"b", "v"⟩] [⟨"a", some extW⟩]).calls
      ∧ (ImageAsset.mk "a" "u").id ∉
        (processBatch envAllOk [⟨"a", "u"⟩, ⟨"b", "v"⟩] [⟨"a", some extW⟩]).writes)
    ∧ (processBatch envAllOk [⟨"a", "u"⟩, ⟨"b", "v"⟩] [⟨"a", some extW⟩]).calls =
        [(ImageAsset.mk "b" "v").id] := by
  constructor
  · exact (dedup_idempotence_amended envAllOk envAllOk [⟨"a", "u"⟩, ⟨"b", "v"⟩]
      [⟨"a", some extW⟩]).1 ⟨"a", "u"⟩ (by decide) ⟨"a", some extW⟩ (by decide)
  · exact (dedup_idempotence_amended envAllOk envAllOk [⟨"a", "u"⟩, ⟨"b", "v"⟩]
      [⟨"a", some extW⟩]).2.2 ⟨"a", "u"⟩ ⟨"b", "v"⟩ ⟨"a", some extW⟩ (by decide) (by decide)

/-! ## Claim C10: null extraction payloads do not suppress re-extraction -/

/-- C10: a persisted record whose extraction payload is null — the value
`processFiles` writes at ingestion — does not count as a prior result:
the snapshot loader drops it from `extractedData`, the dedup check
misses, and the batch invokes the Extraction Client for that image
again; and even a prior-results entry found by the dedup lookup
suppresses re-extraction only when its data payload is non-null. -/
theorem null_payload_reextracted (records : List StoreRecord) (env : Env)
    (images : List ImageAsset) (img : ImageAsset) :
    (∀ id u : String, ∀ ts : Nat, (ingestRecord id u ts).extractedData = none)
    ∧ (img ∈ images → (∀ r ∈ records, r.id = img.id → r.extractedData = none) →
        dedupHit (loadExtractedData records) img.id = none
        ∧ img.id ∈ (processBatch env images (loadExtractedData records)).calls)
    ∧ (∀ existing : List ExtractionItem, ∀ e : ExtractionItem, img ∈ images →
        existing.find? (fun x => x.imageId == img.id) = some e → e.data = none →
        img.id ∈ (processBatch env images existing).calls) := by
  refine ⟨fun _ _ _ => rfl, ?_, ?_⟩
  · intro hmem hnull
    have hno : ∀ x ∈ loadExtractedData records, x.imageId ≠ img.id := by
      intro x hx hid
      rw [loadExtractedData, mem_sortWith] at hx
      rcases List.mem_filterMap.mp hx with ⟨r, hr, hmap⟩
      rcases hd : r.extractedData with _ | d
      · rw [hd] at hmap
        exact absurd hmap (by simp)
      · rw [hd] at hmap
        simp only [Option.map_some', Option.some.injEq] at hmap
        have hrid : r.id = img.id := by
          rw [← hid, ← hmap]
        have : r.extractedData = none :=
          hnull r (List.mem_filter.mp hr).1 hrid
        rw [hd] at this
        exact absurd this (by simp)
    have hdd : dedupHit (loadExtractedData records) img.id = none :=
      dedupHit_none_of_not_mem _ _ hno
    refine ⟨hdd, ?_⟩
    rw [processBatch_calls]
    exact List.mem_filterMap.mpr
      ⟨img, hmem, stepImage_call_of_no_dedup env _ img hdd⟩
  · intro existing e hmem hfind hdata
    have hdd : dedupHit existing img.id = none := by
      rw [dedupHit, hfind, Option.some_bind, hdata]
      rfl
    rw [processBatch_calls]
    exact List.mem_filterMap.mpr
      ⟨img, hmem, stepImage_call_of_no_dedup env existing img hdd⟩

/-- C10, witness: the freshly ingested record for image `"a"` (null
payload) does not suppress re-extraction — the dedup check misses and
the client is invoked for `"a"` again. -/
theorem null_payload_reextracted_witness :
    dedupHit (loadExtractedData [ingestRecord "a" "u" 0]) (ImageAsset.mk "a" "u").id = none
    ∧ (ImageAsset.mk "a" "u").id ∈
      (processBatch envTransportFail [⟨"a", "u"⟩]
        (loadExtractedData [ingestRecord "a" "u" 0])).calls :=
  (null_payload_reextracted [ingestRecord "a" "u" 0] envTransportFail
    [⟨"a", "u"⟩] ⟨"a", "u"⟩).2.1 (by decide) (by decide)

/-! ## Claim C8: the export document round-trips -/

theorem mk_toList (s : String) : String.mk s.toList = s := by
  rcases s with ⟨d⟩
  rfl

theorem toList_mk (l : List Char) : (String.mk l).toList = l := rfl

theorem csvStep_q (rows : List (List String)) (cur : List String) (f : List Char)
    (c : Char) :
    csvStep ⟨rows, cur, f, CsvMode.q⟩ c =
      if c = '"' then ⟨rows, cur, f, CsvMode.qq⟩
      else ⟨rows, cur, f ++ [c], CsvMode.q⟩ := rfl

theorem csvStep_qq (rows : List (List String)) (cur : List String) (f : List Char)
    (c : Char) :
    csvStep ⟨rows, cur, f, CsvMode.qq⟩ c =
      if c = '"' then ⟨rows, cur, f ++ ['"'], CsvMode.q⟩
      else if c = ',' then ⟨rows, cur ++ [String.mk f], [], CsvMode.unq⟩
      else if c = '\n' then ⟨rows ++ [cur ++ [String.mk f]], [], [], CsvMode.unq⟩
      else ⟨rows, cur, f ++ [c], CsvMode.unq⟩ := rfl

theorem csvStep_unq (rows : List (List String)) (cur : List String) (f : List Char)
    (c : Char) :
    csvStep ⟨rows, cur, f, CsvMode.unq⟩ c =
      if c = '"' ∧ f = [] then ⟨rows, cur, f, CsvMode.q⟩
      else if c = ',' then ⟨rows, cur ++ [String.mk f], [], CsvMode.unq⟩
      else if c = '\n' then ⟨rows ++ [cur ++ [String.mk f]], [], [], CsvMode.unq⟩
      else ⟨rows, cur, f ++ [c], CsvMode.unq⟩ := rfl

theorem joinSep_single (sep x : List Char) : joinSep sep [x] = x := rfl

theorem joinSep_cons2 (sep x y : List Char) (rest : List (List Char)) :
    joinSep sep (x :: y :: rest) = x ++ sep ++ joinSep sep (y :: rest) := rfl

theorem foldl_escape (v : List Char) :
    ∀ (rows : List (List String)) (cur : List String) (f rest : List Char),
      List.foldl csvStep ⟨rows, cur, f, CsvMode.q⟩ (escapeQuotes v ++ rest) =
        List.foldl csvStep ⟨rows, cur, f ++ v, CsvMode.q⟩ rest := by
  induction v with
  | nil =>
    intro rows cur f rest
    rw [escapeQuotes, List.nil_append, List.append_nil]
  | cons c v ih =>
    intro rows cur f rest
    by_cases hc : c = '"'
    · subst hc
      rw [escapeQuotes, if_pos rfl, List.cons_append, List.cons_append,
        List.foldl_cons, csvStep_q, if_pos rfl, List.foldl_cons, csvStep_qq,
        if_pos rfl, ih, List.append_assoc]
      rfl
    · rw [escapeQuotes, if_neg hc, List.cons_append, List.foldl_cons, csvStep_q,
        if_neg hc, ih, List.append_assoc]
      rfl


theorem foldl_encodeField (s : String) (rows : List (List String)) (cur : List String)
    (rest : List Char) :
    List.foldl csvStep ⟨rows, cur, [], CsvMode.unq⟩ (encodeField s ++ rest) =
      List.foldl csvStep ⟨rows, cur, s.toList, CsvMode.qq⟩ rest := by
  rw [encodeField, List.cons_append, List.foldl_cons, csvStep_unq,
    if_pos ⟨rfl, rfl⟩, List.append_assoc, foldl_escape, List.nil_append,
    List.singleton_append, List.foldl_cons, csvStep_q, if_pos rfl]

theorem foldl_row_newline (vs : List String) :
    ∀ (v : String) (rows : List (List String)) (cur : List String) (tail : List Char),
      List.foldl csvStep ⟨rows, cur, [], CsvMode.unq⟩
        (joinSep [','] ((v :: vs).map encodeField) ++ '\n' :: tail) =
        List.foldl csvStep ⟨rows ++ [cur ++ v :: vs], [], [], CsvMode.unq⟩ tail := by
  induction vs with
  | nil =>
    intro v rows cur tail
    rw [List.map_cons, List.map_nil, joinSep_single, foldl_encodeField,
      List.foldl_cons, csvStep_qq, if_neg (by decide), if_neg (by decide),
      if_pos rfl, mk_toList]
  | cons v2 vs ih =>
    intro v rows cur tail
    rw [show List.map encodeField (v :: v2 :: vs) =
        encodeField v :: encodeField v2 :: List.map encodeField vs from rfl,
      joinSep_cons2, List.append_assoc, List.append_assoc, List.singleton_append,
      foldl_encodeField, List.foldl_cons, csvStep_qq, if_neg (by decide),
      if_pos rfl, mk_toList,
      show encodeField v2 :: List.map encodeField vs =
        List.map encodeField (v2 :: vs) from rfl, ih]
    have h : (cur ++ [v]) ++ v2 :: vs = cur ++ v :: v2 :: vs := by
      rw [List.append_assoc, List.singleton_append]
    rw [h]

theorem foldl_row_eof (vs : List String) :
    ∀ (v : String) (rows : List (List String)) (cur : List String),
      csvFinish (List.foldl csvStep ⟨rows, cur, [], CsvMode.unq⟩
        (joinSep [','] ((v :: vs).map encodeField))) =
        rows ++ [cur ++ v :: vs] := by
  induction vs with
  | nil =>
    intro v rows cur
    rw [List.map_cons, List.map_nil, joinSep_single,
      show encodeField v = encodeField v ++ [] by rw [List.append_nil],
      foldl_encodeField, List.foldl_nil, csvFinish, mk_toList]
  | cons v2 vs ih =>
    intro v rows cur
    rw [show List.map encodeField (v :: v2 :: vs) =
        encodeField v :: encodeField v2 :: List.map encodeField vs from rfl,
      joinSep_cons2, List.append_assoc, List.singleton_append,
      foldl_encodeField, List.foldl_cons, csvStep_qq, if_neg (by decide),
      if_pos rfl, mk_toList,
      show encodeField v2 :: List.map encodeField vs =
        List.map encodeField (v2 :: vs) from rfl, ih]
    have h : (cur ++ [v]) ++ v2 :: vs = cur ++ v :: v2 :: vs := by
      rw [List.append_assoc, List.singleton_append]
    rw [h]

theorem csv_rows (rvs : List (List String)) :
    ∀ rows : List (List String), (∀ r ∈ rvs, r ≠ []) → rvs ≠ [] →
      csvFinish (List.foldl csvStep ⟨rows, [], [], CsvMode.unq⟩
        (joinSep ['\n'] (rvs.map (fun r => joinSep [','] (r.map encodeField))))) =
        rows ++ rvs := by
  induction rvs with
  | nil => intro rows _ habs; exact absurd rfl habs
  | cons r rvs ih =>
    intro rows hne _
    rcases hr : r with _ | ⟨v, vs⟩
    · exact absurd hr (hne r (List.mem_cons_self r rvs))
    · subst hr
      rcases rvs with _ | ⟨r2, rvs2⟩
      · rw [List.map_cons, List.map_nil, joinSep_single, foldl_row_eof,
          List.nil_append]
      · rw [show List.map (fun r => joinSep [','] (List.map encodeField r))
            ((v :: vs) :: r2 :: rvs2) =
          joinSep [','] (List.map encodeField (v :: vs)) ::
            joinSep [','] (List.map encodeField r2) ::
              List.map (fun r => joinSep [','] (List.map encodeField r)) rvs2 from rfl,
          joinSep_cons2, List.append_assoc, List.singleton_append,
          show joinSep [','] (List.map encodeField r2) ::
              List.map (fun r => joinSep [','] (List.map encodeField r)) rvs2 =
            List.map (fun r => joinSep [','] (List.map encodeField r)) (r2 :: rvs2)
            from rfl,
          foldl_row_newline, List.nil_append]
        rw [ih (rows ++ [v :: vs])
          (fun x hx => hne x (List.mem_cons_of_mem (v :: vs) hx)) (by simp),
          List.append_assoc, List.singleton_append]

set_option maxRecDepth 4096 in
/-- Net effect of reading the fixed header row and its terminating
newline from the initial reader state. -/
theorem foldl_headerRow :
    List.foldl csvStep ⟨[], [], [], CsvMode.unq⟩
        (joinSep [','] (csvHeaders.map String.toList) ++ ['\n']) =
      ⟨[csvHeaders], [], [], CsvMode.unq⟩ := by decide

/-- C8: the export document round-trips. For every non-empty result
sequence, splitting `generateCsv`'s output back into rows and columns
respecting CSV quoting yields the header row followed by one row per
input item, in input order, whose field values are exactly the values
that were written (missing fields as the empty string) — including
values containing commas, quotes or newlines; and the claim's concrete
quoting example holds: `He said "hi", ok` is rendered as
`"He said ""hi"", ok"`. -/
theorem csv_roundtrip (base appId userId : String) (s : Slip) (rest : List Slip) :
    csvParse (generateCsv base appId userId (s :: rest)) =
      csvHeaders :: (s :: rest).map (rowValues base appId userId)
    ∧ String.mk (encodeField "He said \"hi\", ok") = "\"He said \"\"hi\"\", ok\"" := by
  constructor
  · rw [csvParse, generateCsv, toList_mk]
    rw [show List.map
          (fun x => joinSep [','] ((rowValues base appId userId x).map encodeField))
          (s :: rest) =
        joinSep [','] ((rowValues base appId userId s).map encodeField) ::
          rest.map
            (fun x => joinSep [','] ((rowValues base appId userId x).map encodeField))
        from rfl,
      joinSep_cons2,
      show joinSep [','] ((rowValues base appId userId s).map encodeField) ::
          rest.map
            (fun x => joinSep [','] ((rowValues base appId userId x).map encodeField)) =
        List.map
          (fun x => joinSep [','] ((rowValues base appId userId x).map encodeField))
          (s :: rest) from rfl,
      List.foldl_append]
    rw [foldl_headerRow]
    have hmaps : List.map
        (fun x => joinSep [','] ((rowValues base appId userId x).map encodeField))
        (s :: rest) =
        ((s :: rest).map (rowValues base appId userId)).map
          (fun r => joinSep [','] (r.map encodeField)) := by
      rw [List.map_map]
      rfl
    rw [hmaps]
    rw [csv_rows ((s :: rest).map (rowValues base appId userId)) [csvHeaders] ?hne ?hnil]
    case hne =>
      intro r hr
      rcases List.mem_map.mp hr with ⟨x, _, rfl⟩
      simp [rowValues]
    case hnil => simp
    rw [List.singleton_append]
  · decide

end AISlip
